import Mathlib

/-!
The file syncsound.c, the ALSA application interface module for the MOST bus

A shallow embedding of `src/aim-syncsound/syncsound.c`.

* `unsigned int` values are natural numbers reduced with `wrap32`.
* A buffer is a map from byte offsets (counted from the buffer's base address) to bytes.
  The ring buffer `runtime->dma_area` and the transfer buffer `mbo->virt_address` are
  separate allocations, hence separate maps.
* `u16` and `u32` loads and stores are spelled out byte by byte for both host byte orders
  (`be = true` is a big-endian host).
* Calls into the bus layer and into the sound core are recorded as a list of `Event`s.
* A buffer carries no length.  The out-of-range access that can be told from the arguments
  alone, a codec that runs past the byte count it is handed (`copy_fn_t.overruns`), makes
  `copy_data` undefined, as does a `NULL` pointer that is dereferenced.
-/

namespace Syncsound

/-! ## Machine words and buffers -/

/-- One byte of memory. -/
abbrev Byte := Fin 256

/-- The bytes of one buffer, addressed by offset from its base. -/
abbrev Mem := Nat → Byte

/-- Reduction of a natural number to the range of `unsigned int`. -/
def wrap32 (x : Nat) : Nat := x % 4294967296

/-- Subtraction of two `unsigned int` values. -/
def sub32 (a b : Nat) : Nat := wrap32 (4294967296 + wrap32 a - wrap32 b)

/-- The low eight bits of a value, as a byte. -/
def toByte (v : Nat) : Byte := ⟨v % 256, Nat.mod_lt _ (by decide)⟩

/-- The buffer whose first bytes are those of `l` and whose other bytes are zero. -/
def memOf (l : List Byte) : Mem := fun k => l.getD k 0

/-- Load of a `u16` at byte offset `a`. -/
def load16 (be : Bool) (m : Mem) (a : Nat) : Nat :=
  if be then (m a).val * 256 + (m (a + 1)).val
  else (m (a + 1)).val * 256 + (m a).val

/-- Store of a `u16` at byte offset `a`. -/
def store16 (be : Bool) (m : Mem) (a : Nat) (v : Nat) : Mem := fun k =>
  if k = a then toByte (if be then v / 256 else v)
  else if k = a + 1 then toByte (if be then v else v / 256)
  else m k

/-- Load of a `u32` at byte offset `a`. -/
def load32 (be : Bool) (m : Mem) (a : Nat) : Nat :=
  if be then
    (m a).val * 16777216 + (m (a + 1)).val * 65536 + (m (a + 2)).val * 256 + (m (a + 3)).val
  else
    (m (a + 3)).val * 16777216 + (m (a + 2)).val * 65536 + (m (a + 1)).val * 256 + (m a).val

/-- Store of a `u32` at byte offset `a`. -/
def store32 (be : Bool) (m : Mem) (a : Nat) (v : Nat) : Mem := fun k =>
  if k = a then toByte (if be then v / 16777216 else v)
  else if k = a + 1 then toByte (if be then v / 65536 else v / 256)
  else if k = a + 2 then toByte (if be then v / 256 else v / 65536)
  else if k = a + 3 then toByte (if be then v else v / 16777216)
  else m k

/-- Byte swap of a 16-bit value: `((x & 0x00ff) << 8) | ((x & 0xff00) >> 8)`. -/
def swab16 (x : Nat) : Nat := (x % 256) * 256 + (x / 256) % 256

/-- Byte swap of a 32-bit value:
`((x & 0xff) << 24) | ((x & 0xff00) << 8) | ((x & 0xff0000) >> 8) | ((x & 0xff000000) >> 24)`. -/
def swab32 (x : Nat) : Nat :=
  (x % 256) * 16777216 + (x / 256 % 256) * 65536 + (x / 65536 % 256) * 256
    + (x / 16777216) % 256

/-- Store of one byte at offset `a`. -/
def store8 (m : Mem) (a : Nat) (v : Byte) : Mem := fun k => if k = a then v else m k

/-! ## Format codecs (syncsound.c, lines 64 to 134) -/

/-- The loop of `swap_copy16`, entered with loop variable `i`; the result is the destination
buffer and the value of `i` on exit.  `dest` and `source` are `u16` pointers `doff` and `soff`
bytes into their buffers. -/
def swap_copy16_loop (be : Bool) (dest : Mem) (doff : Nat) (source : Mem) (soff : Nat)
    (bytes i : Nat) : Mem × Nat :=
  if i < wrap32 bytes / 2 then
    swap_copy16_loop be
      (store16 be dest (doff + 2 * i) (swab16 (load16 be source (soff + 2 * i))))
      doff source soff bytes (wrap32 (i + 1))
  else (dest, i)
termination_by wrap32 bytes / 2 - i
decreasing_by
  simp only [wrap32] at *
  omega

/-- Embedding of `swap_copy16`. -/
def swap_copy16 (be : Bool) (dest : Mem) (doff : Nat) (source : Mem) (soff : Nat)
    (bytes : Nat) : Mem :=
  (swap_copy16_loop be dest doff source soff bytes 0).1

/-- The loop of `swap_copy24`, entered with loop variable `i`; the result is the destination
buffer and the value of `i` on exit.  The bound `bytes - 2` is an `unsigned int`
subtraction, and `i + 1`, `i + 2` and `i += 3` are `unsigned int` additions. -/
def swap_copy24_loop (dest : Mem) (doff : Nat) (source : Mem) (soff : Nat)
    (bytes i : Nat) : Mem × Nat :=
  if i < sub32 bytes 2 then
    swap_copy24_loop
      (store8 (store8 (store8 dest (doff + i) (source (soff + wrap32 (i + 2))))
        (doff + wrap32 (i + 1)) (source (soff + wrap32 (i + 1))))
        (doff + wrap32 (i + 2)) (source (soff + i)))
      doff source soff bytes (wrap32 (i + 3))
  else (dest, i)
termination_by 4294967296 * (i % 3) + (sub32 bytes 2 - i)
decreasing_by
  rename_i hlt
  have hb : sub32 bytes 2 < 4294967296 := Nat.mod_lt _ (by decide)
  by_cases hw : i + 3 < 4294967296
  · rw [wrap32, Nat.mod_eq_of_lt hw]
    omega
  · have hi : i = 4294967293 ∨ i = 4294967294 := by omega
    rcases hi with hi | hi <;> subst hi <;> simp only [wrap32] <;> omega

/-- Embedding of `swap_copy24`. -/
def swap_copy24 (dest : Mem) (doff : Nat) (source : Mem) (soff : Nat) (bytes : Nat) : Mem :=
  (swap_copy24_loop dest doff source soff bytes 0).1

/-- The loop of `swap_copy32`, entered with loop variable `i`. -/
def swap_copy32_loop (be : Bool) (dest : Mem) (doff : Nat) (source : Mem) (soff : Nat)
    (bytes i : Nat) : Mem × Nat :=
  if i < wrap32 bytes / 4 then
    swap_copy32_loop be
      (store32 be dest (doff + 4 * i) (swab32 (load32 be source (soff + 4 * i))))
      doff source soff bytes (wrap32 (i + 1))
  else (dest, i)
termination_by wrap32 bytes / 4 - i
decreasing_by
  simp only [wrap32] at *
  omega

/-- Embedding of `swap_copy32`. -/
def swap_copy32 (be : Bool) (dest : Mem) (doff : Nat) (source : Mem) (soff : Nat)
    (bytes : Nat) : Mem :=
  (swap_copy32_loop be dest doff source soff bytes 0).1

/-- The library routine `memcpy(dest + doff, source + soff, bytes)`. -/
def memcpy (dest : Mem) (doff : Nat) (source : Mem) (soff : Nat) (bytes : Nat) : Mem :=
  fun k => if doff ≤ k ∧ k < doff + bytes then source (soff + (k - doff)) else dest k

/-- Embedding of `alsa_to_most_memcpy`; the result is the pair (alsa buffer, most buffer). -/
def alsa_to_most_memcpy (alsa : Mem) (aoff : Nat) (most : Mem) (moff : Nat) (bytes : Nat) :
    Mem × Mem :=
  (alsa, memcpy most moff alsa aoff (wrap32 bytes))

/-- Embedding of `alsa_to_most_copy16`. -/
def alsa_to_most_copy16 (be : Bool) (alsa : Mem) (aoff : Nat) (most : Mem) (moff : Nat)
    (bytes : Nat) : Mem × Mem :=
  (alsa, swap_copy16 be most moff alsa aoff bytes)

/-- Embedding of `alsa_to_most_copy24`. -/
def alsa_to_most_copy24 (alsa : Mem) (aoff : Nat) (most : Mem) (moff : Nat) (bytes : Nat) :
    Mem × Mem :=
  (alsa, swap_copy24 most moff alsa aoff bytes)

/-- Embedding of `alsa_to_most_copy32`. -/
def alsa_to_most_copy32 (be : Bool) (alsa : Mem) (aoff : Nat) (most : Mem) (moff : Nat)
    (bytes : Nat) : Mem × Mem :=
  (alsa, swap_copy32 be most moff alsa aoff bytes)

/-- Embedding of `most_to_alsa_memcpy`. -/
def most_to_alsa_memcpy (alsa : Mem) (aoff : Nat) (most : Mem) (moff : Nat) (bytes : Nat) :
    Mem × Mem :=
  (memcpy alsa aoff most moff (wrap32 bytes), most)

/-- Embedding of `most_to_alsa_copy16`. -/
def most_to_alsa_copy16 (be : Bool) (alsa : Mem) (aoff : Nat) (most : Mem) (moff : Nat)
    (bytes : Nat) : Mem × Mem :=
  (swap_copy16 be alsa aoff most moff bytes, most)

/-- Embedding of `most_to_alsa_copy24`. -/
def most_to_alsa_copy24 (alsa : Mem) (aoff : Nat) (most : Mem) (moff : Nat) (bytes : Nat) :
    Mem × Mem :=
  (swap_copy24 alsa aoff most moff bytes, most)

/-- Embedding of `most_to_alsa_copy32`. -/
def most_to_alsa_copy32 (be : Bool) (alsa : Mem) (aoff : Nat) (most : Mem) (moff : Nat)
    (bytes : Nat) : Mem × Mem :=
  (swap_copy32 be alsa aoff most moff bytes, most)

/-- The values the function pointer `channel->copy_fn` takes (`NULL` apart). -/
inductive copy_fn_t where
  | alsa_to_most_memcpy
  | alsa_to_most_copy16
  | alsa_to_most_copy24
  | alsa_to_most_copy32
  | most_to_alsa_memcpy
  | most_to_alsa_copy16
  | most_to_alsa_copy24
  | most_to_alsa_copy32
  deriving DecidableEq, Repr

/-- The call `fn(alsa + aoff, most + moff, bytes)` through the function pointer. -/
def copy_fn_t.call (be : Bool) (fn : copy_fn_t) (alsa : Mem) (aoff : Nat) (most : Mem)
    (moff : Nat) (bytes : Nat) : Mem × Mem :=
  match fn with
  | .alsa_to_most_memcpy => Syncsound.alsa_to_most_memcpy alsa aoff most moff bytes
  | .alsa_to_most_copy16 => Syncsound.alsa_to_most_copy16 be alsa aoff most moff bytes
  | .alsa_to_most_copy24 => Syncsound.alsa_to_most_copy24 alsa aoff most moff bytes
  | .alsa_to_most_copy32 => Syncsound.alsa_to_most_copy32 be alsa aoff most moff bytes
  | .most_to_alsa_memcpy => Syncsound.most_to_alsa_memcpy alsa aoff most moff bytes
  | .most_to_alsa_copy16 => Syncsound.most_to_alsa_copy16 be alsa aoff most moff bytes
  | .most_to_alsa_copy24 => Syncsound.most_to_alsa_copy24 alsa aoff most moff bytes
  | .most_to_alsa_copy32 => Syncsound.most_to_alsa_copy32 be alsa aoff most moff bytes

/-- The codec moves data from the transfer buffer into the ring buffer (capture). -/
def copy_fn_t.toAlsa : copy_fn_t → Bool
  | .most_to_alsa_memcpy | .most_to_alsa_copy16 | .most_to_alsa_copy24
  | .most_to_alsa_copy32 => true
  | _ => false

/-- Sample size in bytes of the group a codec reverses (1 for the straight copy). -/
def copy_fn_t.group : copy_fn_t → Nat
  | .alsa_to_most_memcpy | .most_to_alsa_memcpy => 1
  | .alsa_to_most_copy16 | .most_to_alsa_copy16 => 2
  | .alsa_to_most_copy24 | .most_to_alsa_copy24 => 3
  | .alsa_to_most_copy32 | .most_to_alsa_copy32 => 4

/-- Number of passes the loop of `swap_copy24` makes for a byte count: the loop variable
starts at 0, goes up in steps of 3 and the loop is left when it is no longer below
`bytes - 2`. -/
def groups24 (bytes : Nat) : Nat := (sub32 bytes 2 + 2) / 3

/-- Number of groups a codec moves for a byte count (the number of passes of its loop; the
number of bytes for the straight copy). -/
def copy_fn_t.groups (fn : copy_fn_t) (bytes : Nat) : Nat :=
  match fn with
  | .alsa_to_most_memcpy | .most_to_alsa_memcpy => wrap32 bytes
  | .alsa_to_most_copy16 | .most_to_alsa_copy16 => wrap32 bytes / 2
  | .alsa_to_most_copy24 | .most_to_alsa_copy24 => groups24 bytes
  | .alsa_to_most_copy32 | .most_to_alsa_copy32 => wrap32 bytes / 4

/-- The codec runs past the byte count it is handed: the groups it moves take more bytes
than the count.  This is so for a 24-bit codec handed 0 or 1 bytes, where the loop bound
`bytes - 2` of `swap_copy24` wraps. -/
def copy_fn_t.overruns (fn : copy_fn_t) (bytes : Nat) : Bool :=
  decide (wrap32 bytes < fn.group * fn.groups bytes)

/-! ## Data model (syncsound.c, lines 30 to 62) -/

/-- Error number `EINVAL`. -/
def EINVAL : Int := 22
/-- Error number `ENOTCONN`. -/
def ENOTCONN : Int := 107
/-- Error number `ENOMEM`. -/
def ENOMEM : Int := 12
/-- Error number `EBUSY`. -/
def EBUSY : Int := 16
/-- Error number `ENOENT`. -/
def ENOENT : Int := 2
/-- Direction `MOST_CH_RX` of `enum most_channel_direction` (declared in `mostcore.h`). -/
def MOST_CH_RX : Nat := 1
/-- Direction `MOST_CH_TX` of `enum most_channel_direction` (declared in `mostcore.h`). -/
def MOST_CH_TX : Nat := 2
/-- Data type `MOST_CH_SYNC` of `enum most_channel_data_type` (declared in `mostcore.h`). -/
def MOST_CH_SYNC : Nat := 32
/-- Largest error number an error pointer encodes (`MAX_ERRNO`). -/
def MAX_ERRNO : Int := 4095
/-- The macro `MAX_PERIOD_SIZE`. -/
def MAX_PERIOD_SIZE : Nat := 8192
/-- Trigger command `SNDRV_PCM_TRIGGER_STOP`. -/
def SNDRV_PCM_TRIGGER_STOP : Int := 0
/-- Trigger command `SNDRV_PCM_TRIGGER_START`. -/
def SNDRV_PCM_TRIGGER_START : Int := 1

/-- Conversion of an `int` to `unsigned int`. -/
def toU32 (x : Int) : Nat := (x % 4294967296).toNat

/-- The fields of `struct most_channel_config` (declared in `mostcore.h`) that the module
reads or writes. -/
structure most_channel_config where
  direction : Nat
  data_type : Nat
  num_buffers : Nat
  buffer_size : Nat
  subbuffer_size : Nat
  packets_per_xact : Nat
  deriving DecidableEq, Repr

/-- Embedding of `struct mostcore_channel`.  `iface` is a pointer, `0` standing for `NULL`;
`cfg` is the configuration pointed to, `none` standing for `NULL`. -/
structure mostcore_channel where
  channel_id : Int
  iface : Nat
  cfg : Option most_channel_config
  deriving DecidableEq, Repr

/-- The fields of `struct snd_pcm_hardware` that the module sets after initialisation. -/
structure snd_pcm_hardware where
  periods_min : Nat
  periods_max : Nat
  period_bytes_min : Nat
  period_bytes_max : Nat
  buffer_bytes_max : Nat
  channels_min : Nat
  channels_max : Nat
  deriving DecidableEq, Repr

/-- Embedding of `struct channel`.  `substream` is a pointer (`0` for `NULL`),
`playback_task` a task pointer or an error pointer, `copy_fn` a function pointer (`none`
for `NULL`).  The list link of the structure is the position in the device list, and the
wait queue has no state of its own. -/
structure channel where
  rx : mostcore_channel
  tx : mostcore_channel
  syncsound_id : Int
  substream : Nat
  pcm_hardware : snd_pcm_hardware
  period_pos : Nat
  buffer_pos : Nat
  is_stream_running : Bool
  started : Bool
  packets_per_xact : Int
  buffer_size : Int
  playback_task : Int
  copy_fn : Option copy_fn_t
  deriving DecidableEq, Repr

/-- What the module asks the sound core about a sample format: the results of
`snd_pcm_format_big_endian` and of `snd_pcm_format_physical_width`. -/
structure snd_pcm_format_t where
  big_endian : Int
  physical_width : Int
  deriving DecidableEq, Repr

/-- The fields of `struct snd_pcm_runtime` the module uses. -/
structure snd_pcm_runtime where
  buffer_size : Nat
  period_size : Nat
  format : snd_pcm_format_t
  hw : snd_pcm_hardware
  dma_area : Mem

/-- The fields of `struct mbo` (a transfer unit) the module uses. -/
structure mbo where
  ifp : Nat
  hdm_channel_id : Int
  buffer_length : Nat
  processed_length : Nat
  virt_address : Mem

/-- Calls into the bus layer, the sound core and the scheduler, in program order. -/
inductive Event where
  | most_put_mbo (ifp : Nat) (hdm_channel_id : Int)
  | most_submit_mbo (ifp : Nat) (hdm_channel_id : Int)
  | snd_pcm_period_elapsed (substream : Nat)
  | most_start_channel (iface : Nat) (channel_id : Int)
  | most_stop_channel (iface : Nat) (channel_id : Int)
  | kthread_run (result : Int)
  | kthread_stop (task : Int)
  | wake_up_interruptible
  deriving DecidableEq, Repr

/-- Position of the first channel of the device list that satisfies `p`. -/
def find_channel (p : channel → Bool) : List channel → Option Nat
  | [] => none
  | c :: cs => if p c then some 0 else (find_channel p cs).map (· + 1)

/-- Embedding of `get_channel_rx`; the result is the position in the device list. -/
def get_channel_rx (dev_list : List channel) (iface : Nat) (channel_id : Int) : Option Nat :=
  find_channel (fun c => decide (c.rx.iface = iface ∧ c.rx.channel_id = channel_id)) dev_list

/-- Embedding of `get_channel_tx`; the result is the position in the device list. -/
def get_channel_tx (dev_list : List channel) (iface : Nat) (channel_id : Int) : Option Nat :=
  find_channel (fun c => decide (c.tx.iface = iface ∧ c.tx.channel_id = channel_id)) dev_list

/-! ## Ring buffer copier (lines 158 to 192) -/

/-- Embedding of `copy_data`.  `rt` is the runtime `channel->substream->runtime`.  The
result is `none` when the function dereferences a `NULL` substream, calls a `NULL`
`copy_fn`, or hands the codec a byte count that the codec runs past (buffers carry no length
here, so this is the out-of-range access that can be told from the arguments); otherwise it
is the return value, the channel, the runtime (with the ring buffer) and the transfer
buffer. -/
def copy_data (be : Bool) (ch : channel) (rt : snd_pcm_runtime) (mbo_address : Mem)
    (frames frame_bytes : Nat) : Option (Bool × channel × snd_pcm_runtime × Mem) :=
  if ch.substream = 0 then none else
  match ch.copy_fn with
  | none => none
  | some fn =>
    let frames := wrap32 frames
    let frame_bytes := wrap32 frame_bytes
    let buffer_size := wrap32 rt.buffer_size
    let fr0 := min (sub32 buffer_size ch.buffer_pos) frames
    if fn.overruns (wrap32 (fr0 * frame_bytes)) = true then none else
    let m1 := fn.call be rt.dma_area (wrap32 (ch.buffer_pos * frame_bytes)) mbo_address 0
      (wrap32 (fr0 * frame_bytes))
    if frames > fr0 ∧ fn.overruns (wrap32 (sub32 frames fr0 * frame_bytes)) = true then none
    else
    let m2 := if frames > fr0 then
        fn.call be m1.1 0 m1.2 (wrap32 (fr0 * frame_bytes))
          (wrap32 (sub32 frames fr0 * frame_bytes))
      else m1
    let buffer_pos := wrap32 (ch.buffer_pos + frames)
    let buffer_pos := if buffer_pos ≥ buffer_size then sub32 buffer_pos buffer_size
      else buffer_pos
    let period_pos := wrap32 (ch.period_pos + frames)
    if period_pos ≥ rt.period_size then
      some (true, { ch with buffer_pos := buffer_pos,
                            period_pos := sub32 period_pos rt.period_size },
        { rt with dma_area := m2.1 }, m2.2)
    else
      some (false, { ch with buffer_pos := buffer_pos, period_pos := period_pos },
        { rt with dma_area := m2.1 }, m2.2)

/-! ## Playback thread (lines 194 to 225) -/

/-- The library routine `memset(m, 0, bytes)`. -/
def memset_zero (m : Mem) (bytes : Nat) : Mem := fun k => if k < bytes then 0 else m k

/-- One pass of the loop body of `playback_thread` in which `most_get_mbo` has delivered the
transfer unit `m`.  The result is `none` when the pass dereferences a `NULL` configuration,
divides by a zero `subbuffer_size`, or `copy_data` is undefined. -/
def playback_thread_pass (be : Bool) (ch : channel) (rt : snd_pcm_runtime) (m : mbo) :
    Option (channel × snd_pcm_runtime × mbo × List Event) :=
  if ch.is_stream_running then
    match ch.tx.cfg with
    | none => none
    | some cfg =>
      if cfg.subbuffer_size = 0 then none else
      match copy_data be ch rt m.virt_address (m.buffer_length / cfg.subbuffer_size)
          cfg.subbuffer_size with
      | none => none
      | some (period_elapsed, ch1, rt1, addr1) =>
        some (ch1, rt1, { m with virt_address := addr1 },
          Event.most_submit_mbo m.ifp m.hdm_channel_id ::
            (if period_elapsed then [Event.snd_pcm_period_elapsed ch1.substream] else []))
  else
    some (ch, rt, { m with virt_address := memset_zero m.virt_address m.buffer_length },
      [Event.most_submit_mbo m.ifp m.hdm_channel_id])

/-! ## Stream operations (lines 227 to 448) -/

/-- Embedding of `update_pcm_hw_from_cfg`. -/
def update_pcm_hw_from_cfg (ch : channel) (cfg : most_channel_config) : channel :=
  let buf_size : Nat := if ch.buffer_size = -1 then MAX_PERIOD_SIZE else toU32 ch.buffer_size
  let hw1 := { ch.pcm_hardware with periods_min := 1, periods_max := cfg.num_buffers }
  let hw2 := if ch.buffer_size ≠ -1 then { hw1 with period_bytes_min := buf_size } else hw1
  { ch with pcm_hardware :=
      { hw2 with period_bytes_max := buf_size,
                 buffer_bytes_max := wrap32 (buf_size * cfg.num_buffers) } }

/-- Embedding of `pcm_open_play`; `substream` is the pointer passed in, `ch` its
`private_data` and `rt` its runtime.  The result is `none` when `update_pcm_hw_from_cfg`
dereferences a `NULL` configuration. -/
def pcm_open_play (substream : Nat) (ch : channel) (rt : snd_pcm_runtime) :
    Option (Int × channel × snd_pcm_runtime) :=
  if ch.tx.iface = 0 then some (-ENOTCONN, ch, rt) else
  match ch.tx.cfg with
  | none => none
  | some cfg =>
    let ch1 := update_pcm_hw_from_cfg { ch with substream := substream } cfg
    some (0, ch1, { rt with hw := ch1.pcm_hardware })

/-- Embedding of `pcm_open_capture`. -/
def pcm_open_capture (substream : Nat) (ch : channel) (rt : snd_pcm_runtime) :
    Option (Int × channel × snd_pcm_runtime) :=
  if ch.rx.iface = 0 then some (-ENOTCONN, ch, rt) else
  match ch.rx.cfg with
  | none => none
  | some cfg =>
    let ch1 := update_pcm_hw_from_cfg { ch with substream := substream } cfg
    some (0, ch1, { rt with hw := ch1.pcm_hardware })

/-- Embedding of `pcm_close_play`. -/
def pcm_close_play (ch : channel) : Int × channel × List Event :=
  (0, { ch with substream := 0, started := false },
    Event.kthread_stop ch.playback_task ::
      (if ch.started then [Event.most_stop_channel ch.tx.iface ch.tx.channel_id] else []))

/-- Embedding of `pcm_close_capture`. -/
def pcm_close_capture (ch : channel) : Int × channel × List Event :=
  (0, { ch with substream := 0, started := false },
    if ch.started then [Event.most_stop_channel ch.rx.iface ch.rx.channel_id] else [])

/-- The macro `IS_ERR` on a pointer value. -/
def IS_ERR (p : Int) : Bool := decide (-MAX_ERRNO ≤ p ∧ p < 0)

/-- Embedding of `pcm_prepare_play`.  `task` is what `kthread_run` returns and `start_err`
what `most_start_channel` returns. -/
def pcm_prepare_play (ch : channel) (rt : snd_pcm_runtime) (task start_err : Int) :
    Int × channel × List Event :=
  let width := rt.format.physical_width
  let copy_fn : Option copy_fn_t :=
    if rt.format.big_endian ≠ 0 ∨ width = 8 then some copy_fn_t.alsa_to_most_memcpy
    else if width = 16 then some copy_fn_t.alsa_to_most_copy16
    else if width = 24 then some copy_fn_t.alsa_to_most_copy24
    else if width = 32 then some copy_fn_t.alsa_to_most_copy32
    else none
  match copy_fn with
  | none => (-EINVAL, { ch with copy_fn := none }, [])
  | some fn =>
    let ch1 := { ch with copy_fn := some fn, period_pos := 0, buffer_pos := 0,
                         playback_task := task }
    if IS_ERR task then (-ENOMEM, ch1, [Event.kthread_run task])
    else if start_err ≠ 0 then
      (-EBUSY, ch1, [Event.kthread_run task,
        Event.most_start_channel ch.tx.iface ch.tx.channel_id, Event.kthread_stop task])
    else
      (0, { ch1 with started := true },
        [Event.kthread_run task, Event.most_start_channel ch.tx.iface ch.tx.channel_id])

/-- Embedding of `pcm_prepare_capture`.  `start_err` is what `most_start_channel` returns. -/
def pcm_prepare_capture (ch : channel) (rt : snd_pcm_runtime) (start_err : Int) :
    Int × channel × List Event :=
  let width := rt.format.physical_width
  let copy_fn : Option copy_fn_t :=
    if rt.format.big_endian ≠ 0 ∨ width = 8 then some copy_fn_t.most_to_alsa_memcpy
    else if width = 16 then some copy_fn_t.most_to_alsa_copy16
    else if width = 24 then some copy_fn_t.most_to_alsa_copy24
    else if width = 32 then some copy_fn_t.most_to_alsa_copy32
    else none
  match copy_fn with
  | none => (-EINVAL, { ch with copy_fn := none }, [])
  | some fn =>
    let ch1 := { ch with copy_fn := some fn, period_pos := 0, buffer_pos := 0 }
    if start_err ≠ 0 then
      (-EBUSY, ch1, [Event.most_start_channel ch.rx.iface ch.rx.channel_id])
    else
      (0, { ch1 with started := true },
        [Event.most_start_channel ch.rx.iface ch.rx.channel_id])

/-- Embedding of `pcm_trigger`. -/
def pcm_trigger (ch : channel) (cmd : Int) : Int × channel × List Event :=
  if cmd = SNDRV_PCM_TRIGGER_START then
    (0, { ch with is_stream_running := true }, [Event.wake_up_interruptible])
  else if cmd = SNDRV_PCM_TRIGGER_STOP then
    (0, { ch with is_stream_running := false }, [])
  else (-EINVAL, ch, [])

/-! ## Bus layer callbacks (lines 482 to 592) -/

/-- The channel at position `i` of the device list replaced by its image under `f`. -/
def modify_channel (dev_list : List channel) (i : Nat) (f : channel → channel) : List channel :=
  match dev_list[i]? with
  | none => dev_list
  | some c => dev_list.set i (f c)

/-- The loop `while (*args && !isdigit(*args)) ++args;` of `probe_channel`. -/
def skip_to_digit : List Char → List Char
  | [] => []
  | c :: cs => if c.isDigit then c :: cs else skip_to_digit cs

/-- Embedding of `probe_channel`.  `kstrtoint` is the library routine of that name (base 0),
`none` being a non-zero return.  `channel0` is the value the local variable `channel` holds
before anything is assigned to it (`none` for `NULL`, `some i` for a pointer to the channel at
position `i`): when the direction is neither `MOST_CH_RX` nor `MOST_CH_TX` no lookup is made
and `if (channel)` tests that value. -/
def probe_channel (kstrtoint : List Char → Option Int) (channel0 : Option Nat)
    (dev_list : List channel) (iface : Nat) (channel_id : Int) (cfg : most_channel_config)
    (args : List Char) : Option (Int × List channel) :=
  if iface = 0 then some (-EINVAL, dev_list) else
  if cfg.data_type ≠ MOST_CH_SYNC then some (-EINVAL, dev_list) else
  let channel : Option Nat :=
    if cfg.direction = MOST_CH_RX then get_channel_rx dev_list iface channel_id
    else if cfg.direction = MOST_CH_TX then get_channel_tx dev_list iface channel_id
    else channel0
  match channel with
  | some _ => some (-EINVAL, dev_list)
  | none =>
    match skip_to_digit args with
    | [] => some (-EINVAL, dev_list)
    | a :: as =>
      match kstrtoint (a :: as) with
      | none => some (-EINVAL, dev_list)
      | some syncsound_id =>
        match find_channel (fun c => decide (c.syncsound_id = syncsound_id)) dev_list with
        | none => some (-ENOENT, dev_list)
        | some i =>
          some (0, modify_channel dev_list i (fun c =>
            let c1 := if cfg.direction = MOST_CH_RX then
                { c with rx := { channel_id := channel_id, iface := iface, cfg := some cfg } }
              else
                { c with tx := { channel_id := channel_id, iface := iface, cfg := some cfg } }
            if c1.packets_per_xact = -1 then
              { c1 with packets_per_xact := (cfg.packets_per_xact : Int) }
            else c1))

/-- Embedding of `disconnect_channel`. -/
def disconnect_channel (dev_list : List channel) (iface : Nat) (channel_id : Int) :
    Int × List channel :=
  match get_channel_rx dev_list iface channel_id with
  | some i =>
    (0, modify_channel dev_list i (fun c =>
      { c with rx := { channel_id := 0, iface := 0, cfg := none } }))
  | none =>
    match get_channel_tx dev_list iface channel_id with
    | some i =>
      (0, modify_channel dev_list i (fun c =>
        { c with tx := { channel_id := 0, iface := 0, cfg := none } }))
    | none => (-EINVAL, dev_list)

/-- The part of `rx_completion` that follows a successful lookup; `ch` is the channel
found and `rt` the runtime of its substream.  The result is `none` when the function
dereferences a `NULL` configuration, divides by a zero `subbuffer_size`, or `copy_data` is
undefined. -/
def rx_completion_found (be : Bool) (ch : channel) (rt : snd_pcm_runtime) (m : mbo) :
    Option (Int × channel × snd_pcm_runtime × mbo × List Event) :=
  if ch.is_stream_running then
    match ch.rx.cfg with
    | none => none
    | some cfg =>
      if cfg.subbuffer_size = 0 then none else
      match copy_data be ch rt m.virt_address (m.processed_length / cfg.subbuffer_size)
          cfg.subbuffer_size with
      | none => none
      | some (period_elapsed, ch1, rt1, addr1) =>
        some (0, ch1, rt1, { m with virt_address := addr1 },
          Event.most_put_mbo m.ifp m.hdm_channel_id ::
            (if period_elapsed then [Event.snd_pcm_period_elapsed ch1.substream] else []))
  else
    some (0, ch, rt, m, [Event.most_put_mbo m.ifp m.hdm_channel_id])

/-- Embedding of `tx_completion`. -/
def tx_completion (dev_list : List channel) (iface : Nat) (channel_id : Int) :
    Int × List Event :=
  match get_channel_tx dev_list iface channel_id with
  | none => (-EINVAL, [])
  | some _ => (0, [Event.wake_up_interruptible])

/-! ## Runs of calls -/

/-- A call the bus layer makes through `struct most_aim`; a `probe_channel` call comes with
the value its local variable `channel` holds on entry. -/
inductive aim_call where
  | probe (channel0 : Option Nat) (iface : Nat) (channel_id : Int) (cfg : most_channel_config)
      (args : List Char)
  | disconnect (iface : Nat) (channel_id : Int)

/-- The device list after a run of `probe_channel` and `disconnect_channel` calls. -/
def aim_run (kstrtoint : List Char → Option Int) (dev_list : List channel) :
    List aim_call → Option (List channel)
  | [] => some dev_list
  | aim_call.probe channel0 iface channel_id cfg args :: calls =>
    match probe_channel kstrtoint channel0 dev_list iface channel_id cfg args with
    | none => none
    | some (_, dev_list1) => aim_run kstrtoint dev_list1 calls
  | aim_call.disconnect iface channel_id :: calls =>
    aim_run kstrtoint (disconnect_channel dev_list iface channel_id).2 calls

/-- What `kstrtoint` gives for a string of one decimal digit; other strings are taken as
rejected. -/
def kstrtoint_digit : List Char → Option Int
  | [c] => if c.isDigit then some ((c.toNat : Int) - 48) else none
  | _ => none

/-- The direction of every `probe_channel` call of a run is `MOST_CH_RX` or `MOST_CH_TX`. -/
def directions_valid : List aim_call → Prop
  | [] => True
  | aim_call.probe _ _ _ cfg _ :: calls =>
    (cfg.direction = MOST_CH_RX ∨ cfg.direction = MOST_CH_TX) ∧ directions_valid calls
  | aim_call.disconnect _ _ :: calls => directions_valid calls

/-- No two distinct channels of the device list have the same pair `key` of an interface and
a channel id, pairs with a `NULL` interface apart. -/
def pairs_unique (key : channel → Nat × Int) (dev_list : List channel) : Prop :=
  ∀ (i j : Nat) (a b : channel), i ≠ j → dev_list[i]? = some a → dev_list[j]? = some b →
    (key a).1 ≠ 0 → key a ≠ key b

/-- No two distinct channels of the device list hold the same pair of a non-`NULL` interface
and a channel id in their RX bindings, nor in their TX bindings. -/
def bindings_unique (dev_list : List channel) : Prop :=
  pairs_unique (fun c => (c.rx.iface, c.rx.channel_id)) dev_list ∧
  pairs_unique (fun c => (c.tx.iface, c.tx.channel_id)) dev_list

/-- Every channel of the device list has both bindings clear, as `mod_init` leaves them. -/
def all_unbound (dev_list : List channel) : Prop :=
  ∀ c ∈ dev_list, c.rx.iface = 0 ∧ c.tx.iface = 0

/-! ## Module set-up (lines 607 to 627 and 695 to 752) -/

/-- Embedding of the constant `most_hardware`. -/
def most_hardware : snd_pcm_hardware :=
  { periods_min := 1, periods_max := 128, period_bytes_min := 128,
    period_bytes_max := MAX_PERIOD_SIZE, buffer_bytes_max := 128 * MAX_PERIOD_SIZE,
    channels_min := 1, channels_max := 6 }

/-- Channel number `i` as the loop of `mod_init` sets it up in the zeroed private data of
the sound card. -/
def mod_init_channel (i : Int) : channel :=
  { rx := { channel_id := 0, iface := 0, cfg := none },
    tx := { channel_id := 0, iface := 0, cfg := none },
    syncsound_id := i, substream := 0, pcm_hardware := most_hardware,
    period_pos := 0, buffer_pos := 0, is_stream_running := false, started := false,
    packets_per_xact := 255, buffer_size := -1, playback_task := 0, copy_fn := none }

/-! ## Byte-level description of the codecs -/

/-- Offset, inside a run of groups of `g` bytes, that byte `x` is taken from when every
group is reversed. -/
def swapIdx (g x : Nat) : Nat := g * (x / g) + (g - 1 - x % g)

/-- The destination after the first `n` groups of `g` bytes of the source are written
reversed. -/
def swapBytes (g n : Nat) (dest : Mem) (doff : Nat) (source : Mem) (soff : Nat) : Mem :=
  fun k => if doff ≤ k ∧ k < doff + g * n then source (soff + swapIdx g (k - doff)) else dest k

theorem wrap32_of_lt {x : Nat} (h : x < 4294967296) : wrap32 x = x :=
  Nat.mod_eq_of_lt h

theorem wrap32_lt (x : Nat) : wrap32 x < 4294967296 :=
  Nat.mod_lt _ (by decide)

theorem sub32_of_le {a b : Nat} (ha : a < 4294967296) (hb : b ≤ a) : sub32 a b = a - b := by
  unfold sub32 wrap32
  omega

theorem toByte_val (b : Byte) : toByte b.val = b := by
  apply Fin.ext
  simp only [toByte]
  omega

theorem swab16_eq (x y : Byte) : swab16 (y.val * 256 + x.val) = x.val * 256 + y.val := by
  have hx := x.isLt
  have hy := y.isLt
  have h1 : (y.val * 256 + x.val) % 256 = x.val := by omega
  have h2 : (y.val * 256 + x.val) / 256 % 256 = y.val := by omega
  simp only [swab16, h1, h2]

theorem swab16_bytes (x y : Byte) :
    toByte (swab16 (y.val * 256 + x.val)) = y ∧
    toByte (swab16 (y.val * 256 + x.val) / 256) = x := by
  have hx := x.isLt
  have hy := y.isLt
  rw [swab16_eq]
  constructor <;> apply Fin.ext <;> simp only [toByte] <;> omega

theorem swab32_eq (x y z w : Byte) :
    swab32 (w.val * 16777216 + z.val * 65536 + y.val * 256 + x.val)
      = x.val * 16777216 + y.val * 65536 + z.val * 256 + w.val := by
  have hx := x.isLt
  have hy := y.isLt
  have hz := z.isLt
  have hw := w.isLt
  have h1 : (w.val * 16777216 + z.val * 65536 + y.val * 256 + x.val) % 256 = x.val := by omega
  have h2 : (w.val * 16777216 + z.val * 65536 + y.val * 256 + x.val) / 256 % 256 = y.val := by
    omega
  have h3 : (w.val * 16777216 + z.val * 65536 + y.val * 256 + x.val) / 65536 % 256
      = z.val := by omega
  have h4 : (w.val * 16777216 + z.val * 65536 + y.val * 256 + x.val) / 16777216 % 256
      = w.val := by omega
  simp only [swab32, h1, h2, h3, h4]

theorem swab32_bytes (x y z w : Byte) :
    toByte (swab32 (w.val * 16777216 + z.val * 65536 + y.val * 256 + x.val)) = w ∧
    toByte (swab32 (w.val * 16777216 + z.val * 65536 + y.val * 256 + x.val) / 256) = z ∧
    toByte (swab32 (w.val * 16777216 + z.val * 65536 + y.val * 256 + x.val) / 65536) = y ∧
    toByte (swab32 (w.val * 16777216 + z.val * 65536 + y.val * 256 + x.val) / 16777216) = x := by
  have hx := x.isLt
  have hy := y.isLt
  have hz := z.isLt
  have hw := w.isLt
  rw [swab32_eq]
  refine ⟨?_, ?_, ?_, ?_⟩ <;> apply Fin.ext <;> simp only [toByte] <;> omega

theorem store16_swab16 (be : Bool) (dest source : Mem) (a b : Nat) :
    store16 be dest a (swab16 (load16 be source b))
      = store8 (store8 dest a (source (b + 1))) (a + 1) (source b) := by
  funext k
  have hA := swab16_bytes (source b) (source (b + 1))
  have hB := swab16_bytes (source (b + 1)) (source b)
  cases be
  · simp only [store16, store8, load16, Bool.false_eq_true, if_false, hA.1, hA.2]
    split_ifs <;> first | rfl | (exfalso; omega)
  · simp only [store16, store8, load16, if_true, hB.1, hB.2]
    split_ifs <;> first | rfl | (exfalso; omega)

theorem store32_swab32 (be : Bool) (dest source : Mem) (a b : Nat) :
    store32 be dest a (swab32 (load32 be source b))
      = store8 (store8 (store8 (store8 dest a (source (b + 3))) (a + 1) (source (b + 2)))
          (a + 2) (source (b + 1))) (a + 3) (source b) := by
  funext k
  have hA := swab32_bytes (source b) (source (b + 1)) (source (b + 2)) (source (b + 3))
  have hB := swab32_bytes (source (b + 3)) (source (b + 2)) (source (b + 1)) (source b)
  cases be
  · simp only [store32, store8, load32, Bool.false_eq_true, if_false, hA.1, hA.2.1, hA.2.2.1,
      hA.2.2.2]
    split_ifs <;> first | rfl | (exfalso; omega)
  · simp only [store32, store8, load32, if_true, hB.1, hB.2.1, hB.2.2.1, hB.2.2.2]
    split_ifs <;> first | rfl | (exfalso; omega)

theorem swap_copy16_loop_eq (be : Bool) (doff : Nat) (source : Mem) (soff bytes : Nat) :
    ∀ (n i : Nat) (dest : Mem), wrap32 bytes / 2 - i = n → i ≤ wrap32 bytes / 2 →
      swap_copy16_loop be dest doff source soff bytes i
        = (fun k => if doff + 2 * i ≤ k ∧ k < doff + 2 * (wrap32 bytes / 2)
            then source (soff + swapIdx 2 (k - doff)) else dest k, wrap32 bytes / 2) := by
  intro n
  induction n with
  | zero =>
    intro i dest h hi
    have hi2 : i = wrap32 bytes / 2 := by omega
    rw [swap_copy16_loop, if_neg (by omega)]
    refine Prod.ext ?_ hi2
    funext k
    simp only []
    rw [if_neg (by omega)]
  | succ n ih =>
    intro i dest h hi
    have hlt : i < wrap32 bytes / 2 := by omega
    have hb := wrap32_lt bytes
    rw [swap_copy16_loop, if_pos hlt, wrap32_of_lt (by omega : i + 1 < 4294967296),
      ih (i + 1) _ (by omega) (by omega), store16_swab16]
    refine Prod.ext ?_ rfl
    funext k
    simp only [store8, swapIdx]
    split_ifs <;> first | rfl | (exfalso; omega) | (congr 1; omega)

theorem swap_copy16_eq (be : Bool) (dest : Mem) (doff : Nat) (source : Mem) (soff bytes : Nat) :
    swap_copy16 be dest doff source soff bytes
      = swapBytes 2 (wrap32 bytes / 2) dest doff source soff := by
  unfold swap_copy16
  rw [swap_copy16_loop_eq be doff source soff bytes (wrap32 bytes / 2) 0 dest
    (Nat.sub_zero _) (Nat.zero_le _)]
  funext k
  simp only [swapBytes, Nat.mul_zero, Nat.add_zero]

theorem swap_copy32_loop_eq (be : Bool) (doff : Nat) (source : Mem) (soff bytes : Nat) :
    ∀ (n i : Nat) (dest : Mem), wrap32 bytes / 4 - i = n → i ≤ wrap32 bytes / 4 →
      swap_copy32_loop be dest doff source soff bytes i
        = (fun k => if doff + 4 * i ≤ k ∧ k < doff + 4 * (wrap32 bytes / 4)
            then source (soff + swapIdx 4 (k - doff)) else dest k, wrap32 bytes / 4) := by
  intro n
  induction n with
  | zero =>
    intro i dest h hi
    have hi2 : i = wrap32 bytes / 4 := by omega
    rw [swap_copy32_loop, if_neg (by omega)]
    refine Prod.ext ?_ hi2
    funext k
    simp only []
    rw [if_neg (by omega)]
  | succ n ih =>
    intro i dest h hi
    have hlt : i < wrap32 bytes / 4 := by omega
    have hb := wrap32_lt bytes
    rw [swap_copy32_loop, if_pos hlt, wrap32_of_lt (by omega : i + 1 < 4294967296),
      ih (i + 1) _ (by omega) (by omega), store32_swab32]
    refine Prod.ext ?_ rfl
    funext k
    simp only [store8, swapIdx]
    split_ifs <;> first | rfl | (exfalso; omega) | (congr 1; omega)

theorem swap_copy32_eq (be : Bool) (dest : Mem) (doff : Nat) (source : Mem) (soff bytes : Nat) :
    swap_copy32 be dest doff source soff bytes
      = swapBytes 4 (wrap32 bytes / 4) dest doff source soff := by
  unfold swap_copy32
  rw [swap_copy32_loop_eq be doff source soff bytes (wrap32 bytes / 4) 0 dest
    (Nat.sub_zero _) (Nat.zero_le _)]
  funext k
  simp only [swapBytes, Nat.mul_zero, Nat.add_zero]

theorem sub32_lt (a b : Nat) : sub32 a b < 4294967296 := wrap32_lt _

theorem swap_copy24_loop_eq (doff : Nat) (source : Mem) (soff bytes : Nat) :
    ∀ (n j : Nat) (dest : Mem), groups24 bytes - j = n → j ≤ groups24 bytes →
      swap_copy24_loop dest doff source soff bytes (3 * j)
        = (fun k => if doff + 3 * j ≤ k ∧ k < doff + 3 * groups24 bytes
            then source (soff + swapIdx 3 (k - doff)) else dest k, 3 * groups24 bytes) := by
  have hb := sub32_lt bytes 2
  intro n
  induction n with
  | zero =>
    intro j dest h hj
    have hj2 : j = groups24 bytes := by omega
    have hge : ¬ 3 * j < sub32 bytes 2 := by
      rw [hj2]; unfold groups24; omega
    rw [swap_copy24_loop, if_neg hge]
    refine Prod.ext ?_ (by rw [hj2])
    funext k
    simp only []
    rw [if_neg (by omega)]
  | succ n ih =>
    intro j dest h hj
    have hjN : j + 1 ≤ groups24 bytes := by omega
    have hlt : 3 * j < sub32 bytes 2 := by
      unfold groups24 at hjN; omega
    have h3 : 3 * j + 3 < 4294967296 := by
      unfold groups24 at hjN; omega
    rw [swap_copy24_loop, if_pos hlt, wrap32_of_lt h3,
      wrap32_of_lt (by omega : 3 * j + 1 < 4294967296),
      wrap32_of_lt (by omega : 3 * j + 2 < 4294967296),
      show 3 * j + 3 = 3 * (j + 1) by ring, ih (j + 1) _ (by omega) (by omega)]
    refine Prod.ext ?_ rfl
    funext k
    simp only [store8, swapIdx]
    split_ifs <;> first | rfl | (exfalso; omega) | (congr 1; omega)

theorem swap_copy24_eq (dest : Mem) (doff : Nat) (source : Mem) (soff bytes : Nat) :
    swap_copy24 dest doff source soff bytes
      = swapBytes 3 (groups24 bytes) dest doff source soff := by
  unfold swap_copy24
  have h := swap_copy24_loop_eq doff source soff bytes (groups24 bytes) 0 dest
    (Nat.sub_zero _) (Nat.zero_le _)
  rw [Nat.mul_zero] at h
  rw [h]
  funext k
  simp only [swapBytes, Nat.add_zero]

theorem memcpy_eq (dest : Mem) (doff : Nat) (source : Mem) (soff bytes : Nat) :
    memcpy dest doff source soff bytes = swapBytes 1 bytes dest doff source soff := by
  funext k
  simp only [memcpy, swapBytes, swapIdx, Nat.one_mul, Nat.div_one, Nat.mod_one, Nat.sub_self,
    Nat.add_zero]

theorem groups24_of_pos {bytes : Nat} (hb : bytes < 4294967296) (h3 : 3 ∣ bytes)
    (hpos : 0 < bytes) : 3 * groups24 bytes = bytes := by
  obtain ⟨n, rfl⟩ := h3
  unfold groups24 sub32 wrap32
  omega

theorem groups24_zero : groups24 0 = 1431655765 := by
  unfold groups24 sub32 wrap32
  norm_num

theorem swapBytes_inside (g n : Nat) (dest : Mem) (doff : Nat) (source : Mem) (soff k : Nat)
    (hk : k < g * n) :
    swapBytes g n dest doff source soff (doff + k) = source (soff + swapIdx g k) := by
  simp only [swapBytes]
  rw [if_pos ⟨by omega, by omega⟩, Nat.add_sub_cancel_left]

theorem swapBytes_outside (g n : Nat) (dest : Mem) (doff : Nat) (source : Mem) (soff x : Nat)
    (hx : x < doff ∨ doff + g * n ≤ x) :
    swapBytes g n dest doff source soff x = dest x := by
  simp only [swapBytes]
  rw [if_neg (by omega)]

theorem swapIdx_two (k : Nat) : swapIdx 2 k < 2 * (k / 2 + 1) ∧ swapIdx 2 (swapIdx 2 k) = k := by
  unfold swapIdx
  omega

theorem swapIdx_three (k : Nat) :
    swapIdx 3 k < 3 * (k / 3 + 1) ∧ swapIdx 3 (swapIdx 3 k) = k := by
  unfold swapIdx
  omega

theorem swapIdx_four (k : Nat) :
    swapIdx 4 k < 4 * (k / 4 + 1) ∧ swapIdx 4 (swapIdx 4 k) = k := by
  unfold swapIdx
  omega

theorem swapBytes_round_trip (g n : Nat) (hg : g = 2 ∨ g = 3 ∨ g = 4) (alsa most out : Mem)
    (aoff moff ooff k : Nat) (hk : k < g * n) :
    swapBytes g n out ooff (swapBytes g n most moff alsa aoff) moff (ooff + k)
      = alsa (aoff + k) := by
  have hlt : swapIdx g k < g * n ∧ swapIdx g (swapIdx g k) = k := by
    rcases hg with rfl | rfl | rfl
    · have := swapIdx_two k
      refine ⟨?_, this.2⟩
      have h1 : k / 2 + 1 ≤ n := by omega
      omega
    · have := swapIdx_three k
      refine ⟨?_, this.2⟩
      have h1 : k / 3 + 1 ≤ n := by omega
      omega
    · have := swapIdx_four k
      refine ⟨?_, this.2⟩
      have h1 : k / 4 + 1 ≤ n := by omega
      omega
  rw [swapBytes_inside _ _ _ _ _ _ _ hk, swapBytes_inside _ _ _ _ _ _ _ hlt.1, hlt.2]

/-- Round trip of the codecs on a block of `bytes` bytes, `bytes` positive: for the widths
16, 24 and 32 and a byte count that is a multiple of the sample size, the client-to-bus codec
followed by the bus-to-client codec gives back every byte of the block. -/
theorem codec_round_trip (be : Bool) (alsa most out : Mem) (aoff moff ooff bytes k : Nat)
    (hb : bytes < 4294967296) (hk : k < bytes) :
    (2 ∣ bytes →
      (most_to_alsa_copy16 be out ooff
        (alsa_to_most_copy16 be alsa aoff most moff bytes).2 moff bytes).1 (ooff + k)
        = alsa (aoff + k)) ∧
    (3 ∣ bytes →
      (most_to_alsa_copy24 out ooff
        (alsa_to_most_copy24 alsa aoff most moff bytes).2 moff bytes).1 (ooff + k)
        = alsa (aoff + k)) ∧
    (4 ∣ bytes →
      (most_to_alsa_copy32 be out ooff
        (alsa_to_most_copy32 be alsa aoff most moff bytes).2 moff bytes).1 (ooff + k)
        = alsa (aoff + k)) := by
  refine ⟨?_, ?_, ?_⟩
  · intro hd
    simp only [most_to_alsa_copy16, alsa_to_most_copy16, swap_copy16_eq, wrap32_of_lt hb]
    exact swapBytes_round_trip 2 _ (Or.inl rfl) _ _ _ _ _ _ _ (by omega)
  · intro hd
    simp only [most_to_alsa_copy24, alsa_to_most_copy24, swap_copy24_eq]
    have h3 := groups24_of_pos hb hd (by omega)
    exact swapBytes_round_trip 3 _ (Or.inr (Or.inl rfl)) _ _ _ _ _ _ _ (by omega)
  · intro hd
    simp only [most_to_alsa_copy32, alsa_to_most_copy32, swap_copy32_eq, wrap32_of_lt hb]
    exact swapBytes_round_trip 4 _ (Or.inr (Or.inr rfl)) _ _ _ _ _ _ _ (by omega)

/-- C4.  With a byte count of 0, which is a multiple of 3, the 24-bit codecs do not leave
the empty block alone: the loop of `swap_copy24` is entered, `alsa_to_most_copy24` stores
byte 2 of the client buffer in byte 0 of the bus buffer and `most_to_alsa_copy24` stores
byte 2 of the bus buffer in byte 0 of the client buffer, and both codecs run past the byte
count. -/
theorem copy24_round_trip_zero_bytes (alsa most out : Mem) (aoff moff ooff : Nat) :
    (alsa_to_most_copy24 alsa aoff most moff 0).2 moff = alsa (aoff + 2) ∧
    (most_to_alsa_copy24 out ooff most moff 0).1 ooff = most (moff + 2) ∧
    copy_fn_t.overruns copy_fn_t.alsa_to_most_copy24 0 = true ∧
    copy_fn_t.overruns copy_fn_t.most_to_alsa_copy24 0 = true := by
  have h1 := swapBytes_inside 3 1431655765 most moff alsa aoff 0 (by norm_num)
  have h2 := swapBytes_inside 3 1431655765 out ooff most moff 0 (by norm_num)
  rw [Nat.add_zero] at h1 h2
  refine ⟨?_, ?_, ?_, ?_⟩
  · simp only [alsa_to_most_copy24, swap_copy24_eq, groups24_zero]
    rw [h1]
    rfl
  · simp only [most_to_alsa_copy24, swap_copy24_eq, groups24_zero]
    rw [h2]
    rfl
  · simp [copy_fn_t.overruns, copy_fn_t.group, copy_fn_t.groups, groups24_zero, wrap32]
  · simp [copy_fn_t.overruns, copy_fn_t.group, copy_fn_t.groups, groups24_zero, wrap32]

/-- C5.  For the group sizes 2, 3 and 4 and a byte count that is a multiple of the group
size, byte `j` of sample `s` of the output is byte `g - 1 - j` of sample `s` of the input;
the two worked examples of the 24-bit and the 16-bit codec are instances. -/
theorem swap_copy_reverses_samples (be : Bool) (dest source : Mem)
    (doff soff bytes s j : Nat) (hb : bytes < 4294967296) :
    (2 ∣ bytes → 2 * s + 2 ≤ bytes → j < 2 →
      swap_copy16 be dest doff source soff bytes (doff + (2 * s + j))
        = source (soff + (2 * s + (2 - 1 - j)))) ∧
    (3 ∣ bytes → 3 * s + 3 ≤ bytes → j < 3 →
      swap_copy24 dest doff source soff bytes (doff + (3 * s + j))
        = source (soff + (3 * s + (3 - 1 - j)))) ∧
    (4 ∣ bytes → 4 * s + 4 ≤ bytes → j < 4 →
      swap_copy32 be dest doff source soff bytes (doff + (4 * s + j))
        = source (soff + (4 * s + (4 - 1 - j)))) ∧
    List.map (swap_copy24 dest 0 (memOf [1, 2, 3, 4, 5, 6]) 0 6) [0, 1, 2, 3, 4, 5]
      = [3, 2, 1, 6, 5, 4] ∧
    List.map (swap_copy16 be dest 0 (memOf [0, 1, 255, 0]) 0 4) [0, 1, 2, 3]
      = [1, 0, 0, 255] := by
  refine ⟨?_, ?_, ?_, ?_, ?_⟩
  · intro hd hs hj
    rw [swap_copy16_eq, wrap32_of_lt hb, swapBytes_inside _ _ _ _ _ _ _ (by omega)]
    congr 1
    unfold swapIdx
    omega
  · intro hd hs hj
    have h3 := groups24_of_pos hb hd (by omega)
    rw [swap_copy24_eq, swapBytes_inside _ _ _ _ _ _ _ (by omega)]
    congr 1
    unfold swapIdx
    omega
  · intro hd hs hj
    rw [swap_copy32_eq, wrap32_of_lt hb, swapBytes_inside _ _ _ _ _ _ _ (by omega)]
    congr 1
    unfold swapIdx
    omega
  · have h3 : groups24 6 = 2 := by
      unfold groups24 sub32 wrap32
      norm_num
    rw [swap_copy24_eq, h3]
    simp [swapBytes, swapIdx, memOf]
  · rw [swap_copy16_eq]
    simp [swapBytes, swapIdx, memOf, wrap32]

theorem swap_copy_reverses_samples_witness :
    (2 ∣ 12 → 2 * 1 + 2 ≤ 12 → 0 < 2 →
      swap_copy16 false (memOf []) 0 (memOf [1, 2, 3, 4, 5, 6, 7, 8, 9, 10, 11, 12]) 0 12
          (0 + (2 * 1 + 0))
        = memOf [1, 2, 3, 4, 5, 6, 7, 8, 9, 10, 11, 12] (0 + (2 * 1 + (2 - 1 - 0)))) ∧
    (3 ∣ 12 → 3 * 1 + 3 ≤ 12 → 0 < 3 →
      swap_copy24 (memOf []) 0 (memOf [1, 2, 3, 4, 5, 6, 7, 8, 9, 10, 11, 12]) 0 12
          (0 + (3 * 1 + 0))
        = memOf [1, 2, 3, 4, 5, 6, 7, 8, 9, 10, 11, 12] (0 + (3 * 1 + (3 - 1 - 0)))) ∧
    (4 ∣ 12 → 4 * 1 + 4 ≤ 12 → 0 < 4 →
      swap_copy32 false (memOf []) 0 (memOf [1, 2, 3, 4, 5, 6, 7, 8, 9, 10, 11, 12]) 0 12
          (0 + (4 * 1 + 0))
        = memOf [1, 2, 3, 4, 5, 6, 7, 8, 9, 10, 11, 12] (0 + (4 * 1 + (4 - 1 - 0)))) ∧
    List.map (swap_copy24 (memOf []) 0 (memOf [1, 2, 3, 4, 5, 6]) 0 6) [0, 1, 2, 3, 4, 5]
      = [3, 2, 1, 6, 5, 4] ∧
    List.map (swap_copy16 false (memOf []) 0 (memOf [0, 1, 255, 0]) 0 4) [0, 1, 2, 3]
      = [1, 0, 0, 255] :=
  swap_copy_reverses_samples false (memOf []) (memOf [1, 2, 3, 4, 5, 6, 7, 8, 9, 10, 11, 12])
    0 0 12 1 0 (by decide)

/-- C6.  With a byte count of 0 the loop bound `bytes - 2` of `swap_copy24` is 4294967294:
the loop leaves with `i = 4294967295` after 1431655765 passes, and the first pass stores
`source[2]` in `dest[0]`, both at indices that are not below the byte count. -/
theorem swap_copy24_zero_bytes (dest source : Mem) (doff soff : Nat) :
    (swap_copy24_loop dest doff source soff 0 0).2 = 3 * 1431655765 ∧
    swap_copy24 dest doff source soff 0 doff = source (soff + 2) := by
  constructor
  · have h := swap_copy24_loop_eq doff source soff 0 (groups24 0) 0 dest
      (Nat.sub_zero _) (Nat.zero_le _)
    rw [Nat.mul_zero] at h
    rw [h, groups24_zero]
  · rw [swap_copy24_eq, groups24_zero]
    have h := swapBytes_inside 3 1431655765 dest doff source soff 0 (by norm_num)
    rw [Nat.add_zero] at h
    rw [h]
    rfl

theorem swap_copy24_of_pos (dest source : Mem) (doff soff bytes : Nat)
    (hb : bytes < 4294967296) (h3 : 3 ∣ bytes) (hpos : 0 < bytes) :
    swap_copy24 dest doff source soff bytes = swapBytes 3 (bytes / 3) dest doff source soff := by
  have h := groups24_of_pos hb h3 hpos
  have h2 : groups24 bytes = bytes / 3 := by omega
  rw [swap_copy24_eq, h2]

/-! ## Byte counts the codecs stay inside -/

theorem overruns_of_ne_three (fn : copy_fn_t) (bytes : Nat) (h : fn.group ≠ 3) :
    fn.overruns bytes = false := by
  cases fn <;>
    simp only [copy_fn_t.overruns, copy_fn_t.group, copy_fn_t.groups, decide_eq_false_iff_not,
      ne_eq, not_true_eq_false] at h ⊢ <;> omega

theorem overruns_of_two_le (fn : copy_fn_t) (bytes : Nat) (h : 2 ≤ wrap32 bytes) :
    fn.overruns bytes = false := by
  by_cases h3 : fn.group = 3
  · have h24 : 3 * groups24 bytes ≤ wrap32 bytes := by
      unfold groups24 sub32 wrap32 at *
      omega
    cases fn <;>
      simp only [copy_fn_t.overruns, copy_fn_t.group, copy_fn_t.groups,
        decide_eq_false_iff_not] at h3 ⊢ <;> omega
  · exact overruns_of_ne_three fn bytes h3

theorem overruns_of_lt_two (fn : copy_fn_t) (bytes : Nat) (h3 : fn.group = 3)
    (h : wrap32 bytes < 2) : fn.overruns bytes = true := by
  have h24 : wrap32 bytes < 3 * groups24 bytes := by
    unfold groups24 sub32 wrap32 at *
    omega
  cases fn <;>
    simp only [copy_fn_t.overruns, copy_fn_t.group, copy_fn_t.groups, decide_eq_true_eq]
      at h3 ⊢ <;> omega

theorem copy_data_in_range (fn : copy_fn_t) (N bp f fb fr0 : Nat)
    (h24 : fn.group = 3 → bp < N ∧ f ≤ N ∧ 0 < f ∧ 2 ≤ fb ∧ N * fb < 4294967296)
    (hfr0 : fr0 = min (sub32 (wrap32 N) bp) (wrap32 f)) :
    fn.overruns (wrap32 (fr0 * wrap32 fb)) = false ∧
    (fr0 < wrap32 f → fn.overruns (wrap32 (sub32 (wrap32 f) fr0 * wrap32 fb)) = false) := by
  by_cases h3 : fn.group = 3
  · obtain ⟨hpos, hf, hf0, hfb, hsz⟩ := h24 h3
    have hfb32 : fb < 4294967296 := lt_of_le_of_lt (Nat.le_mul_of_pos_left _ (by omega)) hsz
    have hN32 : N < 4294967296 := lt_of_le_of_lt (Nat.le_mul_of_pos_right _ (by omega)) hsz
    have hf32 : f < 4294967296 := by omega
    rw [wrap32_of_lt hN32, wrap32_of_lt hf32, sub32_of_le hN32 (le_of_lt hpos)] at hfr0
    have hfr0N : fr0 ≤ N := by omega
    have hfr0f : fr0 ≤ f := by omega
    have hfr0pos : 1 ≤ fr0 := by omega
    rw [wrap32_of_lt hfb32, wrap32_of_lt hf32, sub32_of_le hf32 hfr0f]
    have hb1 : fr0 * fb < 4294967296 := lt_of_le_of_lt (Nat.mul_le_mul_right _ hfr0N) hsz
    have hb1' : 1 * fb ≤ fr0 * fb := Nat.mul_le_mul_right _ hfr0pos
    refine ⟨overruns_of_two_le fn _ (by rw [wrap32_of_lt (wrap32_lt _), wrap32_of_lt hb1]; omega),
      fun hlt => overruns_of_two_le fn _ ?_⟩
    have hb2 : (f - fr0) * fb < 4294967296 :=
      lt_of_le_of_lt (Nat.mul_le_mul_right _ (by omega)) hsz
    have hb2' : 1 * fb ≤ (f - fr0) * fb := Nat.mul_le_mul_right _ (by omega)
    rw [wrap32_of_lt (wrap32_lt _), wrap32_of_lt hb2]
    omega
  · exact ⟨overruns_of_ne_three fn _ h3, fun _ => overruns_of_ne_three fn _ h3⟩

/-! ## Position counters of `copy_data` -/

theorem mod_of_lt_two_mul {a n : Nat} (h : a < 2 * n) :
    a % n = if n ≤ a then a - n else a := by
  split_ifs with hle
  · rw [Nat.mod_eq_sub_mod hle, Nat.mod_eq_of_lt (by omega)]
  · exact Nat.mod_eq_of_lt (by omega)

theorem copy_data_fields (be : Bool) (ch : channel) (rt : snd_pcm_runtime) (fn : copy_fn_t)
    (address : Mem) (f frame_bytes fr0 : Nat) (hs : ch.substream ≠ 0)
    (hfn : ch.copy_fn = some fn)
    (hfr0 : fr0 = min (sub32 (wrap32 rt.buffer_size) ch.buffer_pos) (wrap32 f))
    (ho1 : fn.overruns (wrap32 (fr0 * wrap32 frame_bytes)) = false)
    (ho2 : fr0 < wrap32 f →
      fn.overruns (wrap32 (sub32 (wrap32 f) fr0 * wrap32 frame_bytes)) = false) :
    ∃ r, copy_data be ch rt address f frame_bytes = some r ∧
      r.1 = decide (rt.period_size ≤ wrap32 (ch.period_pos + wrap32 f)) ∧
      r.2.1.period_pos =
        (if rt.period_size ≤ wrap32 (ch.period_pos + wrap32 f)
          then sub32 (wrap32 (ch.period_pos + wrap32 f)) rt.period_size
          else wrap32 (ch.period_pos + wrap32 f)) ∧
      r.2.1.buffer_pos =
        (if wrap32 rt.buffer_size ≤ wrap32 (ch.buffer_pos + wrap32 f)
          then sub32 (wrap32 (ch.buffer_pos + wrap32 f)) (wrap32 rt.buffer_size)
          else wrap32 (ch.buffer_pos + wrap32 f)) ∧
      r.2.1.substream = ch.substream ∧ r.2.1.copy_fn = ch.copy_fn ∧
      r.2.1.rx = ch.rx ∧ r.2.1.tx = ch.tx ∧
      r.2.1.is_stream_running = ch.is_stream_running ∧ r.2.1.started = ch.started ∧
      r.2.1.playback_task = ch.playback_task ∧
      r.2.2.1.period_size = rt.period_size ∧ r.2.2.1.buffer_size = rt.buffer_size := by
  subst hfr0
  have ho2' : ¬ (wrap32 f > min (sub32 (wrap32 rt.buffer_size) ch.buffer_pos) (wrap32 f) ∧
      fn.overruns (wrap32 (sub32 (wrap32 f)
        (min (sub32 (wrap32 rt.buffer_size) ch.buffer_pos) (wrap32 f)) * wrap32 frame_bytes))
        = true) := by
    rintro ⟨hlt, hov⟩
    rw [ho2 hlt] at hov
    exact Bool.false_ne_true hov
  unfold copy_data
  rw [if_neg hs]
  simp only [hfn]
  rw [if_neg (by rw [ho1]; exact Bool.false_ne_true), if_neg ho2']
  split_ifs with h1 <;> exact ⟨_, rfl, by simp [h1]⟩

theorem copy_data_some (be : Bool) (ch : channel) (rt : snd_pcm_runtime) (address : Mem)
    (f frame_bytes : Nat) (r : Bool × channel × snd_pcm_runtime × Mem)
    (h : copy_data be ch rt address f frame_bytes = some r) :
    r.2.1.rx = ch.rx ∧ r.2.1.tx = ch.tx ∧ r.2.1.playback_task = ch.playback_task := by
  unfold copy_data at h
  by_cases hs : ch.substream = 0
  · rw [if_pos hs] at h
    cases h
  rw [if_neg hs] at h
  cases hfn : ch.copy_fn with
  | none =>
    simp only [hfn] at h
    cases h
  | some fn =>
    simp only [hfn] at h
    split_ifs at h <;> (cases h; exact ⟨rfl, rfl, rfl⟩)


/-- C1.  For a ring buffer of `N` frames with `N < 2^32`, a position `buffer_pos < N` and a
frame count `f ≤ N` such that `buffer_pos + f < 2^32` (and, with a 24-bit codec, `f > 0`,
`frame_bytes ≥ 2` and `N * frame_bytes < 2^32`, so that the codec is not handed fewer than 2
bytes), `copy_data` returns and leaves `buffer_pos` equal to `(buffer_pos + f) mod N`. -/
theorem copy_data_buffer_pos (be : Bool) (ch : channel) (rt : snd_pcm_runtime) (fn : copy_fn_t)
    (address : Mem) (f frame_bytes : Nat) (hs : ch.substream ≠ 0)
    (hfn : ch.copy_fn = some fn) (hN : rt.buffer_size < 4294967296)
    (hpos : ch.buffer_pos < rt.buffer_size) (hf : f ≤ rt.buffer_size)
    (hsum : ch.buffer_pos + f < 4294967296)
    (h24 : fn.group = 3 →
      0 < f ∧ 2 ≤ frame_bytes ∧ rt.buffer_size * frame_bytes < 4294967296) :
    ∃ r, copy_data be ch rt address f frame_bytes = some r ∧
      r.2.1.buffer_pos = (ch.buffer_pos + f) % rt.buffer_size := by
  obtain ⟨ho1, ho2⟩ := copy_data_in_range fn rt.buffer_size ch.buffer_pos f frame_bytes _
    (fun h3 => ⟨hpos, hf, h24 h3⟩) rfl
  obtain ⟨r, hr, -, -, hb, -⟩ :=
    copy_data_fields be ch rt fn address f frame_bytes _ hs hfn rfl ho1 ho2
  refine ⟨r, hr, ?_⟩
  rw [hb, wrap32_of_lt (by omega : f < 4294967296), wrap32_of_lt hsum, wrap32_of_lt hN,
    mod_of_lt_two_mul (by omega : ch.buffer_pos + f < 2 * rt.buffer_size)]
  split_ifs with h
  · exact sub32_of_le hsum h
  · rfl

theorem copy_data_buffer_pos_witness :
    ∃ r, copy_data false
        { mod_init_channel 0 with substream := 1, buffer_pos := 6,
                                  copy_fn := some copy_fn_t.most_to_alsa_copy24 }
        { buffer_size := 8, period_size := 2, format := { big_endian := 0, physical_width := 24 },
          hw := most_hardware, dma_area := memOf [] }
        (memOf []) 5 6 = some r ∧
      r.2.1.buffer_pos = (6 + 5) % 8 :=
  copy_data_buffer_pos false
    { mod_init_channel 0 with substream := 1, buffer_pos := 6,
                              copy_fn := some copy_fn_t.most_to_alsa_copy24 }
    { buffer_size := 8, period_size := 2, format := { big_endian := 0, physical_width := 24 },
      hw := most_hardware, dma_area := memOf [] }
    copy_fn_t.most_to_alsa_copy24 (memOf []) 5 6 (by decide) rfl (by decide) (by decide)
    (by decide) (by decide) (fun _ => ⟨by decide, by decide, by decide⟩)

/-- C1, counterexample.  With a ring buffer of 4294967295 frames, `buffer_pos = 4294967294`
and 4294967295 frames of one byte, the `unsigned int` sum `buffer_pos + frames` wraps to
4294967293, which is below the ring buffer size and is the position `copy_data` leaves;
`(buffer_pos + f) mod N` is 4294967294. -/
theorem copy_data_buffer_pos_counterexample :
    (∃ r, copy_data false
        { mod_init_channel 0 with substream := 1, buffer_pos := 4294967294,
                                  copy_fn := some copy_fn_t.most_to_alsa_memcpy }
        { buffer_size := 4294967295, period_size := 4294967295,
          format := { big_endian := 0, physical_width := 8 },
          hw := most_hardware, dma_area := memOf [] }
        (memOf []) 4294967295 1 = some r ∧ r.2.1.buffer_pos = 4294967293) ∧
    (4294967294 + 4294967295) % 4294967295 = 4294967294 := by
  refine ⟨?_, by norm_num⟩
  obtain ⟨r, hr, -, -, hb, -⟩ := copy_data_fields false
    { mod_init_channel 0 with substream := 1, buffer_pos := 4294967294,
                              copy_fn := some copy_fn_t.most_to_alsa_memcpy }
    { buffer_size := 4294967295, period_size := 4294967295,
      format := { big_endian := 0, physical_width := 8 },
      hw := most_hardware, dma_area := memOf [] }
    copy_fn_t.most_to_alsa_memcpy (memOf []) 4294967295 1 _ (by decide) rfl rfl
    (overruns_of_ne_three _ _ (by decide)) (fun _ => overruns_of_ne_three _ _ (by decide))
  refine ⟨r, hr, ?_⟩
  rw [hb]
  simp [wrap32, sub32]

/-- C7.  For a sample format that is not big-endian (`snd_pcm_format_big_endian` gives 0) and
whose physical width is none of 8, 16, 24 and 32, `pcm_prepare_play` and
`pcm_prepare_capture` return `-EINVAL`, leave `copy_fn` at `NULL` and call nothing. -/
theorem pcm_prepare_unsupported_format (ch : channel) (rt : snd_pcm_runtime)
    (task start_err : Int) (hbe : rt.format.big_endian = 0)
    (h8 : rt.format.physical_width ≠ 8) (h16 : rt.format.physical_width ≠ 16)
    (h24 : rt.format.physical_width ≠ 24) (h32 : rt.format.physical_width ≠ 32) :
    pcm_prepare_play ch rt task start_err = (-EINVAL, { ch with copy_fn := none }, []) ∧
    pcm_prepare_capture ch rt start_err = (-EINVAL, { ch with copy_fn := none }, []) := by
  constructor
  · simp [pcm_prepare_play, hbe, h8, h16, h24, h32]
  · simp [pcm_prepare_capture, hbe, h8, h16, h24, h32]

theorem pcm_prepare_unsupported_format_witness :
    pcm_prepare_play (mod_init_channel 0)
        { buffer_size := 8, period_size := 2,
          format := { big_endian := 0, physical_width := 64 },
          hw := most_hardware, dma_area := memOf [] } 4096 0
      = (-EINVAL, { mod_init_channel 0 with copy_fn := none }, []) ∧
    pcm_prepare_capture (mod_init_channel 0)
        { buffer_size := 8, period_size := 2,
          format := { big_endian := 0, physical_width := 64 },
          hw := most_hardware, dma_area := memOf [] } 0
      = (-EINVAL, { mod_init_channel 0 with copy_fn := none }, []) :=
  pcm_prepare_unsupported_format (mod_init_channel 0)
    { buffer_size := 8, period_size := 2, format := { big_endian := 0, physical_width := 64 },
      hw := most_hardware, dma_area := memOf [] } 4096 0 rfl (by decide) (by decide)
    (by decide) (by decide)

/-- C7, counterexample.  For a big-endian format of physical width 64 both functions bind the
straight copy and return 0: the width is looked at only when the format is not big-endian. -/
theorem pcm_prepare_unsupported_format_counterexample :
    (pcm_prepare_play (mod_init_channel 0)
        { buffer_size := 8, period_size := 2,
          format := { big_endian := 1, physical_width := 64 },
          hw := most_hardware, dma_area := memOf [] } 4096 0).1 = 0 ∧
    (pcm_prepare_play (mod_init_channel 0)
        { buffer_size := 8, period_size := 2,
          format := { big_endian := 1, physical_width := 64 },
          hw := most_hardware, dma_area := memOf [] } 4096 0).2.1.copy_fn
      = some copy_fn_t.alsa_to_most_memcpy ∧
    (pcm_prepare_capture (mod_init_channel 0)
        { buffer_size := 8, period_size := 2,
          format := { big_endian := 1, physical_width := 64 },
          hw := most_hardware, dma_area := memOf [] } 0).1 = 0 ∧
    (pcm_prepare_capture (mod_init_channel 0)
        { buffer_size := 8, period_size := 2,
          format := { big_endian := 1, physical_width := 64 },
          hw := most_hardware, dma_area := memOf [] } 0).2.1.copy_fn
      = some copy_fn_t.most_to_alsa_memcpy := by
  refine ⟨?_, ?_, ?_, ?_⟩ <;> simp [pcm_prepare_play, pcm_prepare_capture, IS_ERR, MAX_ERRNO]

/-! ## Channel lookup and update -/

theorem find_channel_some (p : channel → Bool) :
    ∀ (l : List channel) (i : Nat), find_channel p l = some i →
      ∃ c, l[i]? = some c ∧ p c = true := by
  intro l
  induction l with
  | nil =>
    intro i h
    simp [find_channel] at h
  | cons c cs ih =>
    intro i h
    by_cases hp : p c = true
    · simp only [find_channel, hp, if_true, Option.some.injEq] at h
      subst h
      exact ⟨c, List.getElem?_cons_zero, hp⟩
    · simp only [find_channel, hp, Bool.false_eq_true, if_false, Option.map_eq_some'] at h
      obtain ⟨j, hj, rfl⟩ := h
      obtain ⟨d, hd, hpd⟩ := ih j hj
      exact ⟨d, by rw [List.getElem?_cons_succ]; exact hd, hpd⟩

theorem find_channel_none (p : channel → Bool) :
    ∀ (l : List channel), find_channel p l = none →
      ∀ (j : Nat) (c : channel), l[j]? = some c → p c = false := by
  intro l
  induction l with
  | nil =>
    intro _ j c h
    simp at h
  | cons d ds ih =>
    intro h j c hj
    by_cases hp : p d = true
    · simp [find_channel, hp] at h
    · simp only [find_channel, hp, Bool.false_eq_true, if_false, Option.map_eq_none'] at h
      cases j with
      | zero =>
        simp only [List.getElem?_cons_zero, Option.some.injEq] at hj
        subst hj
        simpa using hp
      | succ j =>
        rw [List.getElem?_cons_succ] at hj
        exact ih h j c hj

theorem modify_channel_get (l : List channel) (i j : Nat) (f : channel → channel) :
    (modify_channel l i f)[j]? = if j = i then (l[i]?).map f else l[j]? := by
  unfold modify_channel
  cases h : l[i]? with
  | none =>
    split_ifs with hji
    · subst hji
      simp [h]
    · rfl
  | some c =>
    have hlt : i < l.length := (List.getElem?_eq_some.mp h).1
    by_cases hji : j = i
    · subst hji
      rw [if_pos rfl, List.getElem?_set_self hlt, Option.map_some']
    · rw [if_neg hji, List.getElem?_set_ne (fun e => hji e.symm)]

/-! ## Capture completion -/

/-- C9.  After `disconnect_channel` has cleared the binding of a direction of channel `i`,
`pcm_trigger` with the start command returns 0 on that channel and sets
`is_stream_running`; `pcm_open_capture` (after an RX disconnect) and `pcm_open_play` (after
a TX disconnect) are what return `-ENOTCONN`. -/
theorem pcm_trigger_start_after_disconnect (dev_list : List channel) (iface : Nat)
    (channel_id : Int) (i substream : Nat) (rt : snd_pcm_runtime) :
    (get_channel_rx dev_list iface channel_id = some i →
      ∃ ch, (disconnect_channel dev_list iface channel_id).2[i]? = some ch ∧
        ch.rx.iface = 0 ∧
        pcm_trigger ch SNDRV_PCM_TRIGGER_START
          = (0, { ch with is_stream_running := true }, [Event.wake_up_interruptible]) ∧
        pcm_open_capture substream ch rt = some (-ENOTCONN, ch, rt)) ∧
    (get_channel_rx dev_list iface channel_id = none →
      get_channel_tx dev_list iface channel_id = some i →
      ∃ ch, (disconnect_channel dev_list iface channel_id).2[i]? = some ch ∧
        ch.tx.iface = 0 ∧
        pcm_trigger ch SNDRV_PCM_TRIGGER_START
          = (0, { ch with is_stream_running := true }, [Event.wake_up_interruptible]) ∧
        pcm_open_play substream ch rt = some (-ENOTCONN, ch, rt)) := by
  constructor
  · intro h
    obtain ⟨c, hc, -⟩ := find_channel_some _ _ _ h
    refine ⟨{ c with rx := { channel_id := 0, iface := 0, cfg := none } }, ?_, rfl, ?_, ?_⟩
    · simp only [disconnect_channel, h, modify_channel_get, if_true, hc, Option.map_some']
    · simp [pcm_trigger]
    · simp [pcm_open_capture]
  · intro h1 h2
    obtain ⟨c, hc, -⟩ := find_channel_some _ _ _ h2
    refine ⟨{ c with tx := { channel_id := 0, iface := 0, cfg := none } }, ?_, rfl, ?_, ?_⟩
    · simp only [disconnect_channel, h1, h2, modify_channel_get, if_true, hc, Option.map_some']
    · simp [pcm_trigger]
    · simp [pcm_open_play]

theorem pcm_trigger_start_after_disconnect_witness :
    ∃ ch, (disconnect_channel
        [{ mod_init_channel 0 with
            tx := { channel_id := 3, iface := 7,
                    cfg := some { direction := MOST_CH_TX, data_type := MOST_CH_SYNC,
                                  num_buffers := 8, buffer_size := 8, subbuffer_size := 4,
                                  packets_per_xact := 1 } },
            substream := 1 }] 7 3).2[0]? = some ch ∧
      ch.tx.iface = 0 ∧
      pcm_trigger ch SNDRV_PCM_TRIGGER_START
        = (0, { ch with is_stream_running := true }, [Event.wake_up_interruptible]) ∧
      pcm_open_play 1 ch
          { buffer_size := 8, period_size := 2,
            format := { big_endian := 0, physical_width := 16 },
            hw := most_hardware, dma_area := memOf [] }
        = some (-ENOTCONN, ch,
            { buffer_size := 8, period_size := 2,
              format := { big_endian := 0, physical_width := 16 },
              hw := most_hardware, dma_area := memOf [] }) :=
  (pcm_trigger_start_after_disconnect
    [{ mod_init_channel 0 with
        tx := { channel_id := 3, iface := 7,
                cfg := some { direction := MOST_CH_TX, data_type := MOST_CH_SYNC,
                              num_buffers := 8, buffer_size := 8, subbuffer_size := 4,
                              packets_per_xact := 1 } },
        substream := 1 }] 7 3 0 1
    { buffer_size := 8, period_size := 2, format := { big_endian := 0, physical_width := 16 },
      hw := most_hardware, dma_area := memOf [] }).2 (by decide) (by decide)

/-- C9, counterexample.  Channel 0 has its TX direction bound to interface 7, channel id 3.
`pcm_open_play` returns 0; on the channel it leaves, `disconnect_channel` returns 0 and
clears the interface of the TX binding; on the channel that leaves, `pcm_trigger` with the
start command returns 0 and `is_stream_running` is set. -/
theorem pcm_trigger_start_after_disconnect_counterexample :
    (pcm_open_play 1
        { mod_init_channel 0 with
          tx := { channel_id := 3, iface := 7,
                  cfg := some { direction := MOST_CH_TX, data_type := MOST_CH_SYNC,
                                num_buffers := 8, buffer_size := 8, subbuffer_size := 4,
                                packets_per_xact := 1 } } }
        { buffer_size := 8, period_size := 2,
          format := { big_endian := 0, physical_width := 16 },
          hw := most_hardware, dma_area := memOf [] }).map
      (fun opened =>
        (opened.1, (disconnect_channel [opened.2.1] 7 3).1,
          (disconnect_channel [opened.2.1] 7 3).2.map (fun ch =>
            (ch.tx.iface, (pcm_trigger ch SNDRV_PCM_TRIGGER_START).1,
              (pcm_trigger ch SNDRV_PCM_TRIGGER_START).2.1.is_stream_running))))
      = some (0, 0, [(0, 0, true)]) := by
  decide

/-! ## The two directions of a channel -/

/-- C10.  The capture-side operations leave the TX binding and the playback task of the
channel unchanged, and the playback-side operations leave the RX binding unchanged.  (The
position counters, the two flags, the codec and the substream pointer are single fields of
`struct channel`; they are not part of this statement.) -/
theorem bindings_independent (be : Bool) (ch : channel) (rt : snd_pcm_runtime) (m : mbo)
    (cmd task start_err : Int) :
    ((pcm_prepare_capture ch rt start_err).2.1.tx = ch.tx ∧
      (pcm_prepare_capture ch rt start_err).2.1.playback_task = ch.playback_task) ∧
    ((pcm_trigger ch cmd).2.1.tx = ch.tx ∧ (pcm_trigger ch cmd).2.1.rx = ch.rx ∧
      (pcm_trigger ch cmd).2.1.playback_task = ch.playback_task) ∧
    ((pcm_close_capture ch).2.1.tx = ch.tx ∧
      (pcm_close_capture ch).2.1.playback_task = ch.playback_task) ∧
    (∀ r, rx_completion_found be ch rt m = some r →
      r.2.1.tx = ch.tx ∧ r.2.1.playback_task = ch.playback_task) ∧
    (pcm_prepare_play ch rt task start_err).2.1.rx = ch.rx ∧
    (pcm_close_play ch).2.1.rx = ch.rx ∧
    (∀ r, playback_thread_pass be ch rt m = some r → r.1.rx = ch.rx) := by
  refine ⟨⟨?_, ?_⟩, ⟨?_, ?_, ?_⟩, ⟨rfl, rfl⟩, ?_, ?_, rfl, ?_⟩
  · unfold pcm_prepare_capture
    simp only []
    split <;> first | rfl | (split_ifs <;> rfl)
  · unfold pcm_prepare_capture
    simp only []
    split <;> first | rfl | (split_ifs <;> rfl)
  · unfold pcm_trigger
    split_ifs <;> rfl
  · unfold pcm_trigger
    split_ifs <;> rfl
  · unfold pcm_trigger
    split_ifs <;> rfl
  · intro r hr
    unfold rx_completion_found at hr
    by_cases hrun : ch.is_stream_running = true
    · rw [if_pos hrun] at hr
      cases hcfg : ch.rx.cfg with
      | none => simp [hcfg] at hr
      | some cfg =>
        simp only [hcfg] at hr
        by_cases hsz : cfg.subbuffer_size = 0
        · simp [hsz] at hr
        · rw [if_neg hsz] at hr
          cases hcd : copy_data be ch rt m.virt_address
              (m.processed_length / cfg.subbuffer_size) cfg.subbuffer_size with
          | none => simp [hcd] at hr
          | some r2 =>
            obtain ⟨-, htx, hpt⟩ := copy_data_some be ch rt _ _ _ r2 hcd
            obtain ⟨el, ch1, rt1, a1⟩ := r2
            simp only [hcd, Option.some.injEq] at hr
            subst hr
            exact ⟨htx, hpt⟩
    · rw [if_neg hrun] at hr
      simp only [Option.some.injEq] at hr
      subst hr
      exact ⟨rfl, rfl⟩
  · unfold pcm_prepare_play
    simp only []
    split <;> first | rfl | (split_ifs <;> rfl)
  · intro r hr
    unfold playback_thread_pass at hr
    by_cases hrun : ch.is_stream_running = true
    · rw [if_pos hrun] at hr
      cases hcfg : ch.tx.cfg with
      | none => simp [hcfg] at hr
      | some cfg =>
        simp only [hcfg] at hr
        by_cases hsz : cfg.subbuffer_size = 0
        · simp [hsz] at hr
        · rw [if_neg hsz] at hr
          cases hcd : copy_data be ch rt m.virt_address
              (m.buffer_length / cfg.subbuffer_size) cfg.subbuffer_size with
          | none => simp [hcd] at hr
          | some r2 =>
            obtain ⟨hrx, -, -⟩ := copy_data_some be ch rt _ _ _ r2 hcd
            obtain ⟨el, ch1, rt1, a1⟩ := r2
            simp only [hcd, Option.some.injEq] at hr
            subst hr
            exact hrx
    · rw [if_neg hrun] at hr
      simp only [Option.some.injEq] at hr
      subst hr
      rfl

/-- C10, counterexample.  A channel whose playback stream is open (substream 5), prepared
(`started`, codec `alsa_to_most_copy16`) and at buffer position 100: `pcm_close_capture`
clears `substream` and `started`, and `pcm_prepare_capture` resets `buffer_pos` and
replaces the codec, since the channel has one field of each kind for both directions. -/
theorem bindings_independent_counterexample :
    (pcm_close_capture
        { mod_init_channel 0 with substream := 5, started := true, buffer_pos := 100,
                                  copy_fn := some copy_fn_t.alsa_to_most_copy16 }).2.1.substream
      = 0 ∧
    (pcm_close_capture
        { mod_init_channel 0 with substream := 5, started := true, buffer_pos := 100,
                                  copy_fn := some copy_fn_t.alsa_to_most_copy16 }).2.1.started
      = false ∧
    (pcm_prepare_capture
        { mod_init_channel 0 with substream := 5, started := true, buffer_pos := 100,
                                  copy_fn := some copy_fn_t.alsa_to_most_copy16 }
        { buffer_size := 512, period_size := 128,
          format := { big_endian := 0, physical_width := 16 },
          hw := most_hardware, dma_area := memOf [] } 0).2.1.buffer_pos = 0 ∧
    (pcm_prepare_capture
        { mod_init_channel 0 with substream := 5, started := true, buffer_pos := 100,
                                  copy_fn := some copy_fn_t.alsa_to_most_copy16 }
        { buffer_size := 512, period_size := 128,
          format := { big_endian := 0, physical_width := 16 },
          hw := most_hardware, dma_area := memOf [] } 0).2.1.copy_fn
      = some copy_fn_t.most_to_alsa_copy16 := by
  refine ⟨rfl, rfl, ?_, ?_⟩ <;> simp [pcm_prepare_capture]

/-! ## Connect and disconnect -/

theorem pairs_unique_modify (key : channel → Nat × Int) (l : List channel) (i : Nat)
    (f : channel → channel) (h : pairs_unique key l)
    (hf : ∀ c, l[i]? = some c →
      key (f c) = key c ∨ (key (f c)).1 = 0 ∨
        ∀ (j : Nat) (b : channel), l[j]? = some b → key b ≠ key (f c)) :
    pairs_unique key (modify_channel l i f) := by
  intro x y a b hxy ha hb hne heq
  rw [modify_channel_get] at ha hb
  by_cases hx : x = i
  · rw [if_pos hx] at ha
    obtain ⟨c, hc, rfl⟩ := Option.map_eq_some'.mp ha
    have hy : ¬ y = i := fun e => hxy (hx.trans e.symm)
    rw [if_neg hy] at hb
    rcases hf c hc with h1 | h1 | h1
    · rw [h1] at hne heq
      exact h i y c b (fun e => hy e.symm) hc hb hne heq
    · exact hne h1
    · exact h1 y b hb heq.symm
  · rw [if_neg hx] at ha
    by_cases hy : y = i
    · rw [if_pos hy] at hb
      obtain ⟨c, hc, rfl⟩ := Option.map_eq_some'.mp hb
      rcases hf c hc with h1 | h1 | h1
      · rw [h1] at heq
        exact h x i a c hx ha hc hne heq
      · rw [heq] at hne
        exact hne h1
      · exact h1 x a ha heq
    · rw [if_neg hy] at hb
      exact h x y a b hxy ha hb hne heq

theorem all_unbound_unique (l : List channel) (h : all_unbound l) : bindings_unique l := by
  constructor
  · intro i j a b _ ha _ hne _
    exact hne (h a (List.getElem?_mem ha)).1
  · intro i j a b _ ha _ hne _
    exact hne (h a (List.getElem?_mem ha)).2

theorem disconnect_channel_unique (l : List channel) (iface : Nat) (channel_id : Int)
    (h : bindings_unique l) : bindings_unique (disconnect_channel l iface channel_id).2 := by
  unfold disconnect_channel
  cases hrx : get_channel_rx l iface channel_id with
  | some i =>
    exact ⟨pairs_unique_modify _ l i _ h.1 (fun c _ => Or.inr (Or.inl rfl)),
      pairs_unique_modify _ l i _ h.2 (fun c _ => Or.inl rfl)⟩
  | none =>
    cases htx : get_channel_tx l iface channel_id with
    | some i =>
      exact ⟨pairs_unique_modify _ l i _ h.1 (fun c _ => Or.inl rfl),
        pairs_unique_modify _ l i _ h.2 (fun c _ => Or.inr (Or.inl rfl))⟩
    | none => exact h

theorem probe_channel_claimed (kstrtoint : List Char → Option Int) (channel0 : Option Nat)
    (l : List channel) (iface : Nat) (channel_id : Int) (cfg : most_channel_config)
    (args : List Char)
    (h : (cfg.direction = MOST_CH_RX ∧ get_channel_rx l iface channel_id ≠ none) ∨
      (cfg.direction = MOST_CH_TX ∧ get_channel_tx l iface channel_id ≠ none)) :
    probe_channel kstrtoint channel0 l iface channel_id cfg args = some (-EINVAL, l) := by
  unfold probe_channel
  by_cases h1 : iface = 0
  · rw [if_pos h1]
  by_cases h2 : cfg.data_type ≠ MOST_CH_SYNC
  · rw [if_neg h1, if_pos h2]
  rw [if_neg h1, if_neg h2]
  rcases h with ⟨hd, hg⟩ | ⟨hd, hg⟩
  · obtain ⟨i, hi⟩ := Option.ne_none_iff_exists'.mp hg
    simp only [hd, if_true, hi]
  · obtain ⟨i, hi⟩ := Option.ne_none_iff_exists'.mp hg
    have hne : ¬ MOST_CH_TX = MOST_CH_RX := by decide
    simp only [hd, hne, if_false, if_true, hi]

theorem probe_channel_unique (kstrtoint : List Char → Option Int) (channel0 : Option Nat)
    (l : List channel) (iface : Nat) (channel_id : Int) (cfg : most_channel_config)
    (args : List Char)
    (hd : cfg.direction = MOST_CH_RX ∨ cfg.direction = MOST_CH_TX) (h : bindings_unique l) :
    ∃ r, probe_channel kstrtoint channel0 l iface channel_id cfg args = some r ∧
      bindings_unique r.2 := by
  unfold probe_channel
  by_cases h1 : iface = 0
  · rw [if_pos h1]
    exact ⟨_, rfl, h⟩
  by_cases h2 : cfg.data_type ≠ MOST_CH_SYNC
  · rw [if_neg h1, if_pos h2]
    exact ⟨_, rfl, h⟩
  rw [if_neg h1, if_neg h2]
  have hne : ¬ MOST_CH_TX = MOST_CH_RX := by decide
  rcases hd with hd | hd
  · simp only [hd, if_true]
    cases hg : get_channel_rx l iface channel_id with
    | some i => exact ⟨_, rfl, h⟩
    | none =>
      simp only []
      cases hsk : skip_to_digit args with
      | nil => exact ⟨_, rfl, h⟩
      | cons a as =>
        simp only []
        cases hk : kstrtoint (a :: as) with
        | none => exact ⟨_, rfl, h⟩
        | some syncsound_id =>
          simp only []
          cases hf : find_channel (fun c => decide (c.syncsound_id = syncsound_id)) l with
          | none => exact ⟨_, rfl, h⟩
          | some i =>
            refine ⟨_, rfl, ?_, ?_⟩
            · refine pairs_unique_modify _ l i _ h.1 (fun c _ => Or.inr (Or.inr ?_))
              intro j b hb
              have hp := find_channel_none _ l hg j b hb
              simp only [decide_eq_false_iff_not] at hp
              intro e
              apply hp
              split_ifs at e <;> simp only [Prod.mk.injEq] at e <;> exact e
            · refine pairs_unique_modify _ l i _ h.2 (fun c _ => Or.inl ?_)
              split_ifs <;> rfl
  · simp only [hd, hne, if_false, if_true]
    cases hg : get_channel_tx l iface channel_id with
    | some i => exact ⟨_, rfl, h⟩
    | none =>
      simp only []
      cases hsk : skip_to_digit args with
      | nil => exact ⟨_, rfl, h⟩
      | cons a as =>
        simp only []
        cases hk : kstrtoint (a :: as) with
        | none => exact ⟨_, rfl, h⟩
        | some syncsound_id =>
          simp only []
          cases hf : find_channel (fun c => decide (c.syncsound_id = syncsound_id)) l with
          | none => exact ⟨_, rfl, h⟩
          | some i =>
            refine ⟨_, rfl, ?_, ?_⟩
            · refine pairs_unique_modify _ l i _ h.1 (fun c _ => Or.inl ?_)
              split_ifs <;> rfl
            · refine pairs_unique_modify _ l i _ h.2 (fun c _ => Or.inr (Or.inr ?_))
              intro j b hb
              have hp := find_channel_none _ l hg j b hb
              simp only [decide_eq_false_iff_not] at hp
              intro e
              apply hp
              split_ifs at e <;> simp only [Prod.mk.injEq] at e <;> exact e

theorem aim_run_unique (kstrtoint : List Char → Option Int) :
    ∀ (calls : List aim_call) (l : List channel), directions_valid calls → bindings_unique l →
      ∃ l1, aim_run kstrtoint l calls = some l1 ∧ bindings_unique l1 := by
  intro calls
  induction calls with
  | nil =>
    intro l _ h
    exact ⟨l, rfl, h⟩
  | cons c calls ih =>
    intro l hd h
    cases c with
    | probe channel0 iface channel_id cfg args =>
      obtain ⟨r, hr, hu⟩ :=
        probe_channel_unique kstrtoint channel0 l iface channel_id cfg args hd.1 h
      obtain ⟨l1, hl1, hu1⟩ := ih r.2 hd.2 hu
      exact ⟨l1, by simp only [aim_run, hr, hl1], hu1⟩
    | disconnect iface channel_id =>
      obtain ⟨l1, hl1, hu1⟩ := ih _ hd (disconnect_channel_unique l iface channel_id h)
      exact ⟨l1, by simp only [aim_run, hl1], hu1⟩

/-- C11.  A configuration whose direction is neither `MOST_CH_RX` nor `MOST_CH_TX` (here 0)
makes `probe_channel` skip both lookups and test its local variable `channel` unassigned;
when that variable holds `NULL` the function goes on and binds the TX direction.  From the
two unbound channels 0 and 1, a probe of interface 7, channel id 3 with the argument `0`
returns 0 and binds the TX direction of channel 0, and the same probe with the argument `1`
returns 0 as well and binds the TX direction of channel 1: both channels then hold the pair
(7, 3) in the TX direction. -/
theorem probe_channel_unchecked_direction :
    (probe_channel kstrtoint_digit none [mod_init_channel 0, mod_init_channel 1] 7 3
        { direction := 0, data_type := MOST_CH_SYNC, num_buffers := 8, buffer_size := 8,
          subbuffer_size := 4, packets_per_xact := 1 } ['0']).map
      (fun first => (first.1, first.2.map (fun c => (c.tx.iface, c.tx.channel_id))))
      = some (0, [(7, 3), (0, 0)]) ∧
    ((probe_channel kstrtoint_digit none [mod_init_channel 0, mod_init_channel 1] 7 3
        { direction := 0, data_type := MOST_CH_SYNC, num_buffers := 8, buffer_size := 8,
          subbuffer_size := 4, packets_per_xact := 1 } ['0']).bind
      (fun first =>
        probe_channel kstrtoint_digit none first.2 7 3
          { direction := 0, data_type := MOST_CH_SYNC, num_buffers := 8, buffer_size := 8,
            subbuffer_size := 4, packets_per_xact := 1 } ['1'])).map
      (fun second => (second.1, second.2.map (fun c => (c.tx.iface, c.tx.channel_id))))
      = some (0, [(7, 3), (7, 3)]) := by
  constructor <;> decide

/-! ## Playback thread life cycle -/

/-- C12.  `pcm_close_play` calls `kthread_stop` on `playback_task` whatever the state of
the channel.  On a channel bound to interface 7, channel id 3, whose `playback_task` is
`NULL`: after `pcm_open_play` alone, `pcm_close_play` calls `kthread_stop(NULL)` although
`kthread_run` was never called; and after a `pcm_prepare_play` in which
`most_start_channel` fails, the thread 4096 stopped by the rollback is stopped a second time
by `pcm_close_play`. -/
theorem pcm_close_play_kthread_stop (ch : channel) :
    (pcm_close_play ch).2.2.head? = some (Event.kthread_stop ch.playback_task) ∧
    (pcm_open_play 1
        { mod_init_channel 0 with
          tx := { channel_id := 3, iface := 7,
                  cfg := some { direction := MOST_CH_TX, data_type := MOST_CH_SYNC,
                                num_buffers := 8, buffer_size := 8, subbuffer_size := 4,
                                packets_per_xact := 1 } } }
        { buffer_size := 8, period_size := 2,
          format := { big_endian := 0, physical_width := 16 },
          hw := most_hardware, dma_area := memOf [] }).map
      (fun opened => (opened.1, (pcm_close_play opened.2.1).2.2))
      = some (0, [Event.kthread_stop 0]) ∧
    (pcm_open_play 1
        { mod_init_channel 0 with
          tx := { channel_id := 3, iface := 7,
                  cfg := some { direction := MOST_CH_TX, data_type := MOST_CH_SYNC,
                                num_buffers := 8, buffer_size := 8, subbuffer_size := 4,
                                packets_per_xact := 1 } } }
        { buffer_size := 8, period_size := 2,
          format := { big_endian := 0, physical_width := 16 },
          hw := most_hardware, dma_area := memOf [] }).map
      (fun opened =>
        ((pcm_prepare_play opened.2.1 opened.2.2 4096 (-16)).1,
          (pcm_prepare_play opened.2.1 opened.2.2 4096 (-16)).2.2 ++
            (pcm_close_play (pcm_prepare_play opened.2.1 opened.2.2 4096 (-16)).2.1).2.2))
      = some (-EBUSY,
          [Event.kthread_run 4096, Event.most_start_channel 7 3, Event.kthread_stop 4096,
            Event.kthread_stop 4096]) := by
  refine ⟨rfl, ?_, ?_⟩
  · decide
  · decide

/-! ## Frames moved by `copy_data` -/

theorem copy_fn_call_eq (be : Bool) (fn : copy_fn_t) (alsa : Mem) (aoff : Nat) (most : Mem)
    (moff bytes : Nat) :
    fn.call be alsa aoff most moff bytes =
      if fn.toAlsa = true then
        (swapBytes fn.group (fn.groups bytes) alsa aoff most moff, most)
      else (alsa, swapBytes fn.group (fn.groups bytes) most moff alsa aoff) := by
  cases fn <;>
    simp [copy_fn_t.call, copy_fn_t.toAlsa, copy_fn_t.group, copy_fn_t.groups,
      alsa_to_most_memcpy, alsa_to_most_copy16, alsa_to_most_copy24, alsa_to_most_copy32,
      most_to_alsa_memcpy, most_to_alsa_copy16, most_to_alsa_copy24, most_to_alsa_copy32,
      swap_copy16_eq, swap_copy24_eq, swap_copy32_eq, memcpy_eq]

theorem copy_fn_group_pos (fn : copy_fn_t) : 0 < fn.group := by
  cases fn <;> simp [copy_fn_t.group]

theorem copy_fn_groups_mul (fn : copy_fn_t) (bytes : Nat) (hb : bytes < 4294967296)
    (hd : fn.group ∣ bytes) (h24 : fn.group = 3 → 0 < bytes) :
    fn.group * fn.groups bytes = bytes := by
  cases fn <;> simp only [copy_fn_t.group, copy_fn_t.groups, wrap32_of_lt hb] at hd h24 ⊢
  · omega
  · omega
  · exact groups24_of_pos hb hd (h24 trivial)
  · omega
  · omega
  · omega
  · exact groups24_of_pos hb hd (h24 trivial)
  · omega

theorem swapIdx_add_mul (g q t j : Nat) (hg : 0 < g) :
    swapIdx g (t * (g * q) + j) = t * (g * q) + swapIdx g j := by
  unfold swapIdx
  have e : t * (g * q) + j = g * (t * q) + j := by ring
  rw [e, Nat.mul_add_div hg, Nat.mul_add_mod, Nat.mul_add]
  ring

theorem swapIdx_lt_mul (g q j : Nat) (hg : 0 < g) (hj : j < g * q) : swapIdx g j < g * q := by
  unfold swapIdx
  have h1 : j / g < q := Nat.div_lt_of_lt_mul hj
  have h2 : g * (j / g + 1) ≤ g * q := Nat.mul_le_mul_left g h1
  rw [Nat.mul_add, Nat.mul_one] at h2
  omega

/-- Frame-granular description of a block copy. -/
theorem swapBytes_frame (g n q c d0 s0 t j : Nat) (dest source : Mem) (hg : 0 < g)
    (hn : g * n = c * (g * q)) (ht : t < c) (hj : j < g * q) :
    swapBytes g n dest (d0 * (g * q)) source (s0 * (g * q)) ((d0 + t) * (g * q) + j)
      = source ((s0 + t) * (g * q) + swapIdx g j) := by
  have h1 : (t + 1) * (g * q) ≤ c * (g * q) := Nat.mul_le_mul_right _ ht
  have e1 : (d0 + t) * (g * q) + j = d0 * (g * q) + (t * (g * q) + j) := by ring
  have e2 : (t + 1) * (g * q) = t * (g * q) + g * q := by ring
  rw [e1, swapBytes_inside _ _ _ _ _ _ _ (by rw [hn]; omega), swapIdx_add_mul g q t j hg]
  congr 1
  ring

theorem swapBytes_frame_outside (g n q c d0 s0 x : Nat) (dest source : Mem)
    (hn : g * n = c * (g * q)) (hx : x < d0 * (g * q) ∨ (d0 + c) * (g * q) ≤ x) :
    swapBytes g n dest (d0 * (g * q)) source s0 x = dest x := by
  have e : (d0 + c) * (g * q) = d0 * (g * q) + c * (g * q) := by ring
  exact swapBytes_outside _ _ _ _ _ _ _ (by rw [hn]; omega)


theorem copy_data_memory (be : Bool) (ch : channel) (rt : snd_pcm_runtime) (fn : copy_fn_t)
    (address : Mem) (f frame_bytes fr0 : Nat) (hs : ch.substream ≠ 0)
    (hfn : ch.copy_fn = some fn)
    (hfr0 : fr0 = min (sub32 (wrap32 rt.buffer_size) ch.buffer_pos) (wrap32 f))
    (ho1 : fn.overruns (wrap32 (fr0 * wrap32 frame_bytes)) = false)
    (ho2 : fr0 < wrap32 f →
      fn.overruns (wrap32 (sub32 (wrap32 f) fr0 * wrap32 frame_bytes)) = false) :
    ∃ r, copy_data be ch rt address f frame_bytes = some r ∧
      (r.2.2.1.dma_area, r.2.2.2) =
        if fr0 < wrap32 f then
          fn.call be
            (fn.call be rt.dma_area (wrap32 (ch.buffer_pos * wrap32 frame_bytes)) address 0
              (wrap32 (fr0 * wrap32 frame_bytes))).1 0
            (fn.call be rt.dma_area (wrap32 (ch.buffer_pos * wrap32 frame_bytes)) address 0
              (wrap32 (fr0 * wrap32 frame_bytes))).2 (wrap32 (fr0 * wrap32 frame_bytes))
            (wrap32 (sub32 (wrap32 f) fr0 * wrap32 frame_bytes))
        else
          fn.call be rt.dma_area (wrap32 (ch.buffer_pos * wrap32 frame_bytes)) address 0
            (wrap32 (fr0 * wrap32 frame_bytes)) := by
  subst hfr0
  have ho2' : ¬ (wrap32 f > min (sub32 (wrap32 rt.buffer_size) ch.buffer_pos) (wrap32 f) ∧
      fn.overruns (wrap32 (sub32 (wrap32 f)
        (min (sub32 (wrap32 rt.buffer_size) ch.buffer_pos) (wrap32 f)) * wrap32 frame_bytes))
        = true) := by
    rintro ⟨hlt, hov⟩
    rw [ho2 hlt] at hov
    exact Bool.false_ne_true hov
  unfold copy_data
  rw [if_neg hs]
  simp only [hfn]
  rw [if_neg (by rw [ho1]; exact Bool.false_ne_true), if_neg ho2']
  split_ifs <;> exact ⟨_, rfl, by simp [*]⟩

theorem in_block (F d0 c x : Nat) (hF : 0 < F) (h1 : d0 * F ≤ x) (h2 : x < (d0 + c) * F) :
    ∃ t j, t < c ∧ j < F ∧ x = (d0 + t) * F + j := by
  have e : (d0 + c) * F = d0 * F + F * c := by ring
  refine ⟨(x - d0 * F) / F, (x - d0 * F) % F, Nat.div_lt_of_lt_mul (by omega),
    Nat.mod_lt _ hF, ?_⟩
  have h3 := Nat.div_add_mod (x - d0 * F) F
  have e2 : (d0 + (x - d0 * F) / F) * F = d0 * F + F * ((x - d0 * F) / F) := by ring
  omega

theorem ring_frames (g q N bp f n1 n2 : Nat) (dest source : Mem) (hg : 0 < g)
    (hF : 0 < g * q) (hpos : bp < N) (hf : f ≤ N)
    (h1 : g * n1 = min (N - bp) f * (g * q))
    (h2 : min (N - bp) f < f → g * n2 = (f - min (N - bp) f) * (g * q)) :
    (∀ k j, k < f → j < g * q →
      (if min (N - bp) f < f then
          swapBytes g n2 (swapBytes g n1 dest (bp * (g * q)) source 0) 0 source
            (min (N - bp) f * (g * q))
        else swapBytes g n1 dest (bp * (g * q)) source 0)
          ((bp + k) % N * (g * q) + j)
        = source (k * (g * q) + swapIdx g j)) ∧
    (∀ x, (¬ ∃ k j, k < f ∧ j < g * q ∧ x = (bp + k) % N * (g * q) + j) →
      (if min (N - bp) f < f then
          swapBytes g n2 (swapBytes g n1 dest (bp * (g * q)) source 0) 0 source
            (min (N - bp) f * (g * q))
        else swapBytes g n1 dest (bp * (g * q)) source 0) x = dest x) := by
  by_cases hw : N - bp < f
  · -- the copy wraps around the end of the ring buffer
    have hm : min (N - bp) f = N - bp := Nat.min_eq_left (by omega)
    rw [hm] at h1 h2 ⊢
    have h2 := h2 hw
    rw [if_pos hw]
    constructor
    · intro k j hk hj
      by_cases hk0 : k < N - bp
      · rw [Nat.mod_eq_of_lt (by omega)]
        have hle : (f - (N - bp)) * (g * q) ≤ (bp + k) * (g * q) :=
          Nat.mul_le_mul_right _ (by omega)
        have e0 := swapBytes_frame_outside g n2 q (f - (N - bp)) 0 ((N - bp) * (g * q))
          ((bp + k) * (g * q) + j) (swapBytes g n1 dest (bp * (g * q)) source 0) source h2
          (Or.inr (by rw [Nat.zero_add]; omega))
        rw [Nat.zero_mul] at e0
        rw [e0]
        have e1 := swapBytes_frame g n1 q (N - bp) bp 0 k j dest source hg h1 hk0 hj
        rw [Nat.zero_mul, Nat.zero_add] at e1
        exact e1
      · have hmod : (bp + k) % N = k - (N - bp) := by
          have e : bp + k = N + (k - (N - bp)) := by omega
          rw [e, Nat.add_mod_left, Nat.mod_eq_of_lt (by omega)]
        rw [hmod]
        have e1 := swapBytes_frame g n2 q (f - (N - bp)) 0 (N - bp) (k - (N - bp)) j
          (swapBytes g n1 dest (bp * (g * q)) source 0) source hg h2 (by omega) hj
        rw [Nat.zero_mul, Nat.zero_add] at e1
        rw [e1]
        congr 2
        congr 1
        omega
    · intro x hx
      have hout2 : (0 + (f - (N - bp))) * (g * q) ≤ x := by
        by_contra hlt
        obtain ⟨t, j, ht, hj, hxe⟩ := in_block (g * q) 0 (f - (N - bp)) x hF (by omega)
          (by omega)
        apply hx
        refine ⟨N - bp + t, j, by omega, hj, ?_⟩
        have e : bp + (N - bp + t) = N + t := by omega
        rw [e, Nat.add_mod_left, Nat.mod_eq_of_lt (by omega), hxe, Nat.zero_add]
      have e0 := swapBytes_frame_outside g n2 q (f - (N - bp)) 0 ((N - bp) * (g * q)) x
        (swapBytes g n1 dest (bp * (g * q)) source 0) source h2 (Or.inr hout2)
      rw [Nat.zero_mul] at e0
      rw [e0]
      apply swapBytes_frame_outside g n1 q (N - bp) bp 0 x dest source h1
      by_contra hin
      obtain ⟨t, j, ht, hj, hxe⟩ := in_block (g * q) bp (N - bp) x hF (by omega) (by omega)
      apply hx
      refine ⟨t, j, by omega, hj, ?_⟩
      rw [Nat.mod_eq_of_lt (by omega), hxe]
  · have hm : min (N - bp) f = f := Nat.min_eq_right (by omega)
    rw [hm] at h1 ⊢
    rw [if_neg (Nat.lt_irrefl f)]
    constructor
    · intro k j hk hj
      rw [Nat.mod_eq_of_lt (by omega)]
      have e1 := swapBytes_frame g n1 q f bp 0 k j dest source hg h1 hk hj
      rw [Nat.zero_mul, Nat.zero_add] at e1
      exact e1
    · intro x hx
      apply swapBytes_frame_outside g n1 q f bp 0 x dest source h1
      by_contra hin
      obtain ⟨t, j, ht, hj, hxe⟩ := in_block (g * q) bp f x hF (by omega) (by omega)
      apply hx
      refine ⟨t, j, ht, hj, ?_⟩
      rw [Nat.mod_eq_of_lt (by omega), hxe]


theorem mbo_frames (g q N bp f n1 n2 : Nat) (dest source : Mem) (hg : 0 < g)
    (hpos : bp < N) (hf : f ≤ N)
    (h1 : g * n1 = min (N - bp) f * (g * q))
    (h2 : min (N - bp) f < f → g * n2 = (f - min (N - bp) f) * (g * q)) :
    ∀ k j, k < f → j < g * q →
      (if min (N - bp) f < f then
          swapBytes g n2 (swapBytes g n1 dest 0 source (bp * (g * q)))
            (min (N - bp) f * (g * q)) source 0
        else swapBytes g n1 dest 0 source (bp * (g * q))) (k * (g * q) + j)
        = source ((bp + k) % N * (g * q) + swapIdx g j) := by
  intro k j hk hj
  by_cases hw : N - bp < f
  · have hm : min (N - bp) f = N - bp := Nat.min_eq_left (by omega)
    rw [hm] at h1 h2 ⊢
    have h2 := h2 hw
    rw [if_pos hw]
    by_cases hk0 : k < N - bp
    · rw [Nat.mod_eq_of_lt (by omega)]
      have hle : (k + 1) * (g * q) ≤ (N - bp) * (g * q) := Nat.mul_le_mul_right _ hk0
      have e : (k + 1) * (g * q) = k * (g * q) + g * q := by ring
      rw [swapBytes_frame_outside g n2 q (f - (N - bp)) (N - bp) 0 (k * (g * q) + j)
        (swapBytes g n1 dest 0 source (bp * (g * q))) source h2 (Or.inl (by omega))]
      have e1 := swapBytes_frame g n1 q (N - bp) 0 bp k j dest source hg h1 hk0 hj
      rw [Nat.zero_mul, Nat.zero_add] at e1
      exact e1
    · have hmod : (bp + k) % N = k - (N - bp) := by
        have e : bp + k = N + (k - (N - bp)) := by omega
        rw [e, Nat.add_mod_left, Nat.mod_eq_of_lt (by omega)]
      rw [hmod]
      have e1 := swapBytes_frame g n2 q (f - (N - bp)) (N - bp) 0 (k - (N - bp)) j
        (swapBytes g n1 dest 0 source (bp * (g * q))) source hg h2 (by omega) hj
      rw [Nat.zero_mul, Nat.zero_add, show N - bp + (k - (N - bp)) = k by omega] at e1
      exact e1
  · have hm : min (N - bp) f = f := Nat.min_eq_right (by omega)
    rw [hm] at h1 ⊢
    rw [if_neg (Nat.lt_irrefl f), Nat.mod_eq_of_lt (by omega)]
    have e1 := swapBytes_frame g n1 q f 0 bp k j dest source hg h1 hk hj
    rw [Nat.zero_mul, Nat.zero_add] at e1
    exact e1

/-- C3.  For a ring buffer of `N` frames with `N * frame_bytes < 2^32`, a position
`buffer_pos < N`, a frame count `f ≤ N` (not 0 with a 24-bit codec) and a frame size that is
positive and a multiple of the sample size `g` of the codec, `copy_data` returns and pairs
frame `k` of the transfer buffer with ring frame `(buffer_pos + k) mod N` for every `k < f`.
With a `most_to_alsa` codec byte `j` of that ring frame becomes byte `swapIdx g j` of transfer
frame `k` (every sample reversed), every other ring byte keeps its value and the transfer
buffer is unchanged; with an `alsa_to_most` codec byte `j` of transfer frame `k` becomes byte
`swapIdx g j` of that ring frame and the ring buffer is unchanged. -/
theorem copy_data_frames (be : Bool) (ch : channel) (rt : snd_pcm_runtime) (fn : copy_fn_t)
    (address : Mem) (f frame_bytes : Nat) (hs : ch.substream ≠ 0)
    (hfn : ch.copy_fn = some fn) (hfb : 0 < frame_bytes) (hg : fn.group ∣ frame_bytes)
    (hsz : rt.buffer_size * frame_bytes < 4294967296)
    (hpos : ch.buffer_pos < rt.buffer_size) (hf : f ≤ rt.buffer_size)
    (h24 : fn.group = 3 → 0 < f) :
    ∃ r, copy_data be ch rt address f frame_bytes = some r ∧
      (fn.toAlsa = true →
        (∀ k j, k < f → j < frame_bytes →
          r.2.2.1.dma_area ((ch.buffer_pos + k) % rt.buffer_size * frame_bytes + j)
            = address (k * frame_bytes + swapIdx fn.group j)) ∧
        (∀ x, (¬ ∃ k j, k < f ∧ j < frame_bytes ∧
            x = (ch.buffer_pos + k) % rt.buffer_size * frame_bytes + j) →
          r.2.2.1.dma_area x = rt.dma_area x) ∧
        r.2.2.2 = address) ∧
      (fn.toAlsa = false →
        (∀ k j, k < f → j < frame_bytes →
          r.2.2.2 (k * frame_bytes + j)
            = rt.dma_area ((ch.buffer_pos + k) % rt.buffer_size * frame_bytes
                + swapIdx fn.group j)) ∧
        r.2.2.1.dma_area = rt.dma_area) := by
  obtain ⟨q, hq⟩ := hg
  subst hq
  have hgpos := copy_fn_group_pos fn
  have hNpos : 0 < rt.buffer_size := by omega
  have hF32 : fn.group * q < 4294967296 :=
    lt_of_le_of_lt (Nat.le_mul_of_pos_left _ hNpos) hsz
  have hN32 : rt.buffer_size < 4294967296 :=
    lt_of_le_of_lt (Nat.le_mul_of_pos_right _ hfb) hsz
  have hf32 : f < 4294967296 := by omega
  have hbp : ch.buffer_pos * (fn.group * q) < 4294967296 :=
    lt_of_le_of_lt (Nat.mul_le_mul_right _ (le_of_lt hpos)) hsz
  have hm1 : min (rt.buffer_size - ch.buffer_pos) f ≤ rt.buffer_size :=
    le_trans (Nat.min_le_right _ _) hf
  have hm2 : min (rt.buffer_size - ch.buffer_pos) f ≤ f := Nat.min_le_right _ _
  have hb1 : min (rt.buffer_size - ch.buffer_pos) f * (fn.group * q) < 4294967296 :=
    lt_of_le_of_lt (Nat.mul_le_mul_right _ hm1) hsz
  have hb2 : (f - min (rt.buffer_size - ch.buffer_pos) f) * (fn.group * q) < 4294967296 :=
    lt_of_le_of_lt (Nat.mul_le_mul_right _ (by omega)) hsz
  have h1 := copy_fn_groups_mul fn (min (rt.buffer_size - ch.buffer_pos) f * (fn.group * q))
    hb1 (Dvd.dvd.mul_left (Dvd.intro q rfl) _)
    (fun h3 => Nat.mul_pos (by have := h24 h3; omega) hfb)
  have h2 : min (rt.buffer_size - ch.buffer_pos) f < f →
      fn.group * fn.groups ((f - min (rt.buffer_size - ch.buffer_pos) f) * (fn.group * q))
        = (f - min (rt.buffer_size - ch.buffer_pos) f) * (fn.group * q) := fun hlt =>
    copy_fn_groups_mul fn _ hb2 (Dvd.dvd.mul_left (Dvd.intro q rfl) _)
      (fun _ => Nat.mul_pos (by omega) hfb)
  have hfr0 : min (rt.buffer_size - ch.buffer_pos) f
      = min (sub32 (wrap32 rt.buffer_size) ch.buffer_pos) (wrap32 f) := by
    rw [wrap32_of_lt hN32, wrap32_of_lt hf32, sub32_of_le hN32 (le_of_lt hpos)]
  obtain ⟨ho1, ho2⟩ := copy_data_in_range fn rt.buffer_size ch.buffer_pos f (fn.group * q)
    (min (rt.buffer_size - ch.buffer_pos) f)
    (fun h3 => ⟨hpos, hf, h24 h3, by rw [h3] at hfb ⊢; omega, hsz⟩) hfr0
  obtain ⟨r, hr, hmem⟩ := copy_data_memory be ch rt fn address f (fn.group * q)
    (min (rt.buffer_size - ch.buffer_pos) f) hs hfn hfr0 ho1 ho2
  rw [wrap32_of_lt hF32, wrap32_of_lt hf32, wrap32_of_lt hbp, wrap32_of_lt hb1,
    sub32_of_le hf32 hm2, wrap32_of_lt hb2] at hmem
  simp only [copy_fn_call_eq] at hmem
  refine ⟨r, hr, ?_, ?_⟩
  · intro ht
    simp only [ht, if_true] at hmem
    have hd : r.2.2.1.dma_area =
        if min (rt.buffer_size - ch.buffer_pos) f < f then
          swapBytes fn.group
            (fn.groups ((f - min (rt.buffer_size - ch.buffer_pos) f) * (fn.group * q)))
            (swapBytes fn.group
              (fn.groups (min (rt.buffer_size - ch.buffer_pos) f * (fn.group * q)))
              rt.dma_area (ch.buffer_pos * (fn.group * q)) address 0) 0 address
            (min (rt.buffer_size - ch.buffer_pos) f * (fn.group * q))
        else
          swapBytes fn.group
            (fn.groups (min (rt.buffer_size - ch.buffer_pos) f * (fn.group * q)))
            rt.dma_area (ch.buffer_pos * (fn.group * q)) address 0 := by
      have := congrArg Prod.fst hmem
      simp only at this
      rw [this]
      split_ifs <;> rfl
    have ha : r.2.2.2 = address := by
      have := congrArg Prod.snd hmem
      simp only at this
      rw [this]
      split_ifs <;> rfl
    have hrf := ring_frames fn.group q rt.buffer_size ch.buffer_pos f _ _ rt.dma_area address
      hgpos hfb hpos hf h1 h2
    rw [← hd] at hrf
    exact ⟨hrf.1, hrf.2, ha⟩
  · intro ht
    simp only [ht, Bool.false_eq_true, if_false] at hmem
    have hd : r.2.2.2 =
        if min (rt.buffer_size - ch.buffer_pos) f < f then
          swapBytes fn.group
            (fn.groups ((f - min (rt.buffer_size - ch.buffer_pos) f) * (fn.group * q)))
            (swapBytes fn.group
              (fn.groups (min (rt.buffer_size - ch.buffer_pos) f * (fn.group * q)))
              address 0 rt.dma_area (ch.buffer_pos * (fn.group * q)))
            (min (rt.buffer_size - ch.buffer_pos) f * (fn.group * q)) rt.dma_area 0
        else
          swapBytes fn.group
            (fn.groups (min (rt.buffer_size - ch.buffer_pos) f * (fn.group * q)))
            address 0 rt.dma_area (ch.buffer_pos * (fn.group * q)) := by
      have := congrArg Prod.snd hmem
      simp only at this
      rw [this]
      split_ifs <;> rfl
    have ha : r.2.2.1.dma_area = rt.dma_area := by
      have := congrArg Prod.fst hmem
      simp only at this
      rw [this]
      split_ifs <;> rfl
    have hmf := mbo_frames fn.group q rt.buffer_size ch.buffer_pos f _ _ address rt.dma_area
      hgpos hpos hf h1 h2
    rw [← hd] at hmf
    exact ⟨hmf, ha⟩


theorem copy_data_frames_witness :
    ∃ r, copy_data false
        { mod_init_channel 0 with substream := 1, buffer_pos := 3,
                                  copy_fn := some copy_fn_t.most_to_alsa_copy16 }
        { buffer_size := 4, period_size := 2,
          format := { big_endian := 0, physical_width := 16 },
          hw := most_hardware, dma_area := memOf [] }
        (memOf [1, 2, 3, 4, 5, 6, 7, 8]) 2 4 = some r ∧
      (copy_fn_t.toAlsa copy_fn_t.most_to_alsa_copy16 = true →
        (∀ k j, k < 2 → j < 4 →
          r.2.2.1.dma_area ((3 + k) % 4 * 4 + j)
            = memOf [1, 2, 3, 4, 5, 6, 7, 8]
                (k * 4 + swapIdx (copy_fn_t.group copy_fn_t.most_to_alsa_copy16) j)) ∧
        (∀ x, (¬ ∃ k j, k < 2 ∧ j < 4 ∧ x = (3 + k) % 4 * 4 + j) →
          r.2.2.1.dma_area x = memOf [] x) ∧
        r.2.2.2 = memOf [1, 2, 3, 4, 5, 6, 7, 8]) ∧
      (copy_fn_t.toAlsa copy_fn_t.most_to_alsa_copy16 = false →
        (∀ k j, k < 2 → j < 4 →
          r.2.2.2 (k * 4 + j)
            = memOf [] ((3 + k) % 4 * 4
                + swapIdx (copy_fn_t.group copy_fn_t.most_to_alsa_copy16) j)) ∧
        r.2.2.1.dma_area = memOf []) :=
  copy_data_frames false
    { mod_init_channel 0 with substream := 1, buffer_pos := 3,
                              copy_fn := some copy_fn_t.most_to_alsa_copy16 }
    { buffer_size := 4, period_size := 2, format := { big_endian := 0, physical_width := 16 },
      hw := most_hardware, dma_area := memOf [] }
    copy_fn_t.most_to_alsa_copy16 (memOf [1, 2, 3, 4, 5, 6, 7, 8]) 2 4
    (by decide) rfl (by decide) (by decide) (by decide) (by decide) (by decide)
    (fun _ => by decide)

/-- C3, counterexample.  (1) Codec `most_to_alsa_copy16`, a ring buffer of 2 frames of 3
bytes, `buffer_pos = 0` and 2 frames from the transfer buffer `[1, 2, 3, 4, 5, 6]`: the codec
swaps the six bytes in pairs across the frame boundary, so byte 0 of ring frame 1 becomes 3,
whereas the codec applied to transfer frame 1 alone gives 5 there.  (2) Codec
`most_to_alsa_memcpy`, a ring buffer of 65537 frames of 65536 bytes, `buffer_pos = 65536` and
1 frame: the `unsigned int` offset `buffer_pos * frame_bytes` wraps to 0, so byte 0 of the
ring buffer, which belongs to frame 0, changes from 0 to 9. -/
theorem copy_data_frames_counterexample :
    (∃ r, copy_data false
        { mod_init_channel 0 with substream := 1,
                                  copy_fn := some copy_fn_t.most_to_alsa_copy16 }
        { buffer_size := 2, period_size := 2,
          format := { big_endian := 0, physical_width := 16 },
          hw := most_hardware, dma_area := memOf [] }
        (memOf [1, 2, 3, 4, 5, 6]) 2 3 = some r ∧
      r.2.2.1.dma_area (1 * 3 + 0) = 3) ∧
    (most_to_alsa_copy16 false (memOf []) 0 (memOf [1, 2, 3, 4, 5, 6]) (1 * 3) 3).1 0 = 5 ∧
    (∃ r, copy_data false
        { mod_init_channel 0 with substream := 1, buffer_pos := 65536,
                                  copy_fn := some copy_fn_t.most_to_alsa_memcpy }
        { buffer_size := 65537, period_size := 2,
          format := { big_endian := 0, physical_width := 8 },
          hw := most_hardware, dma_area := memOf [] }
        (memOf [9]) 1 65536 = some r ∧
      r.2.2.1.dma_area 0 = 9 ∧ memOf [] 0 = 0) := by
  refine ⟨?_, ?_, ?_⟩
  · obtain ⟨r, hr, hmem⟩ := copy_data_memory false
      { mod_init_channel 0 with substream := 1,
                                copy_fn := some copy_fn_t.most_to_alsa_copy16 }
      { buffer_size := 2, period_size := 2, format := { big_endian := 0, physical_width := 16 },
        hw := most_hardware, dma_area := memOf [] }
      copy_fn_t.most_to_alsa_copy16 (memOf [1, 2, 3, 4, 5, 6]) 2 3 2 (by decide) rfl
      (by decide) (overruns_of_ne_three _ _ (by decide))
      (fun _ => overruns_of_ne_three _ _ (by decide))
    refine ⟨r, hr, ?_⟩
    have h := congrArg Prod.fst hmem
    simp only at h
    rw [h]
    simp [copy_fn_call_eq, wrap32, copy_fn_t.toAlsa, copy_fn_t.group, copy_fn_t.groups,
      swapBytes, swapIdx, memOf, mod_init_channel]
  · simp [most_to_alsa_copy16, swap_copy16_eq, wrap32, swapBytes, swapIdx, memOf]
  · obtain ⟨r, hr, hmem⟩ := copy_data_memory false
      { mod_init_channel 0 with substream := 1, buffer_pos := 65536,
                                copy_fn := some copy_fn_t.most_to_alsa_memcpy }
      { buffer_size := 65537, period_size := 2,
        format := { big_endian := 0, physical_width := 8 },
        hw := most_hardware, dma_area := memOf [] }
      copy_fn_t.most_to_alsa_memcpy (memOf [9]) 1 65536 1 (by decide) rfl (by decide)
      (overruns_of_ne_three _ _ (by decide)) (fun _ => overruns_of_ne_three _ _ (by decide))
    refine ⟨r, hr, ?_, rfl⟩
    have h := congrArg Prod.fst hmem
    simp only at h
    rw [h]
    simp [copy_fn_call_eq, wrap32, copy_fn_t.toAlsa, copy_fn_t.group, copy_fn_t.groups,
      swapBytes, swapIdx, memOf, mod_init_channel]

end Syncsound
